import Mathlib

/-!
Verification of the immufs filesystem core (Go) against its specification.

The Go sources are shallowly embedded:
* `InodeData` mirrors `fs.Inode` (pkg/fs/inode.go), with timestamps as
  abstract integers (`time.Now()` becomes an explicit `now` parameter).
* The immudb tables `inode(inumber, ...)` and `content(inumber, content)`
  are association lists keyed by inumber (`Store`); SQL `UPSERT` / `DELETE`
  become `upsertKey` / `eraseKey`.
* Every state-mutating method is embedded as a function that reads the
  given `Store` and returns the list of store writes (`Ev`) it issues, in
  the order the Go code issues them, together with the updated in-memory
  inode and its return value.  Applying the writes (`runEvs`) yields the
  post state, so both the final state and the issued write order are
  available to theorems.
* Machine integers: inumbers, sizes and nlink are Go `int64`, modelled as
  `Int`; byte offsets and lengths are modelled as `Nat` (the filesystem
  caps content at 2 GiB, far below any 64-bit overflow, and no claim
  probes overflow behaviour).  Bytes are `Nat`s.
-/

/-- POSIX-ish errors returned by the handlers (syscall / fuse errnos). -/
inductive FsErr where
  | EINVAL | ENOENT | EEXIST | ENOTEMPTY | EBADF | ENOSYS
deriving DecidableEq, Repr

/-- `fuseutil.DT_Unknown` (= 0): marks a free directory slot. -/
def dtUnknown : Nat := 0
/-- `fuseutil.DT_Directory` (= 4). -/
def dtDirectory : Nat := 4
/-- `fuseutil.DT_File` (= 8). -/
def dtFile : Nat := 8

/-- `fuseutil.Dirent`: one serialized directory entry
`{Offset, Inode, Name, Type}`.  `Offset` is `fuseops.DirOffset` (uint64),
`Inode` is the child inumber. -/
structure Dirent where
  offset : Nat
  inode : Int
  name : String
  typ : Nat
deriving DecidableEq, Repr

/-- The zero `fuseutil.Dirent{Type: DT_Unknown, Offset: i+1}` written by
`RemoveChild` has zero-valued `Inode` and `Name`. -/
def freeDirent (i : Nat) : Dirent :=
  { offset := i + 1, inode := 0, name := "", typ := dtUnknown }

/-- `fs.Inode` (pkg/fs/inode.go): the persisted inode record.  Timestamps
are abstract `Int`s. -/
structure InodeData where
  inumber : Int
  size : Int
  nlink : Int
  mode : Nat
  atime : Int
  mtime : Int
  ctime : Int
  crtime : Int
  uid : Int
  gid : Int
  toBeDeleted : Bool
deriving DecidableEq, Repr

/-- `os.ModeDir = 1 << 31` test: `fs.FileMode(in.Mode) & os.ModeDir != 0`. -/
def isDirMode (m : Nat) : Bool := m.testBit 31

/-- `os.ModeSymlink = 1 << 27` test. -/
def isSymlinkMode (m : Nat) : Bool := m.testBit 27

/-- `Inode.isFile`: neither directory nor symlink. -/
def isFileMode (m : Nat) : Bool := !(isDirMode m || isSymlinkMode m)

/-- A row of the `content` table.  For a regular file it holds the raw
bytes; for a directory it holds the JSON-marshalled dirent list.  The
JSON round-trip (`marshalDirents` / `unmarshalDirents`) is assumed
faithful, so the directory payload is kept structured. -/
inductive Blob where
  | bytes : List Nat → Blob
  | dirents : List Dirent → Blob
deriving DecidableEq, Repr

/-- The immudb state: the `inode` table and the `content` table, both
keyed by inumber (primary key). -/
structure Store where
  inodes : List (Int × InodeData)
  contents : List (Int × Blob)
deriving DecidableEq, Repr

/-- First-occurrence lookup, the row visible under a primary key. -/
def lookupKey {α : Type} : List (Int × α) → Int → Option α
  | [], _ => none
  | (k', v) :: t, k => if k' = k then some v else lookupKey t k

/-- SQL `UPSERT`: replace the row with this key, or append a new row. -/
def upsertKey {α : Type} : List (Int × α) → Int → α → List (Int × α)
  | [], k, v => [(k, v)]
  | (k', v') :: t, k, v =>
    if k' = k then (k, v) :: t else (k', v') :: upsertKey t k v

/-- SQL `DELETE ... WHERE inumber=?`: drop every row with this key. -/
def eraseKey {α : Type} (l : List (Int × α)) (k : Int) : List (Int × α) :=
  l.filter (fun p => p.1 ≠ k)

/-- One write issued against the store, in the order the Go code issues
them: `WriteInode`, `WriteContent`/`WriteChildren`, and the two deletes
of `DeleteInode`. -/
inductive Ev where
  | putInode : InodeData → Ev
  | putBlob : Int → Blob → Ev
  | delInode : Int → Ev
  | delBlob : Int → Ev
deriving DecidableEq, Repr

/-- Whether an event is a `content`-table (blob) write. -/
def isBlobWrite : Ev → Bool
  | .putBlob _ _ => true
  | _ => false

/-- Whether an event is an `inode`-table write. -/
def isInodeWrite : Ev → Bool
  | .putInode _ => true
  | _ => false

/-- Apply one store write. -/
def applyEv (s : Store) : Ev → Store
  | .putInode i => { s with inodes := upsertKey s.inodes i.inumber i }
  | .putBlob n b => { s with contents := upsertKey s.contents n b }
  | .delInode n => { s with inodes := eraseKey s.inodes n }
  | .delBlob n => { s with contents := eraseKey s.contents n }

/-- Apply a sequence of store writes in order. -/
def runEvs (s : Store) (evs : List Ev) : Store := evs.foldl applyEv s

/-- `ImmuDbClient.GetInode`: the inode row, `ErrInodeNotFound` as `none`. -/
def getInode (s : Store) (n : Int) : Option InodeData := lookupKey s.inodes n

/-- `ImmuDbClient.ReadContent`: a missing `content` row reads as empty
bytes.  A file inumber never holds a `dirents` blob (see `fileBlobOK`);
that arm is unreachable for the file operations below. -/
def readContent (s : Store) (n : Int) : List Nat :=
  match lookupKey s.contents n with
  | some (.bytes d) => d
  | some (.dirents _) => []
  | none => []

/-- `ImmuDbClient.GetChildren`: unmarshal the directory blob; a missing
row or a non-dirent payload is an error (the `OrDie` callers panic),
modelled as `none`. -/
def getChildren (s : Store) (n : Int) : Option (List Dirent) :=
  match lookupKey s.contents n with
  | some (.dirents es) => some es
  | _ => none

/-- The `content` row of inumber `n` is absent or holds raw bytes (it is
not a directory payload).  Holds for every regular file in any state the
filesystem itself produced. -/
def fileBlobOK (s : Store) (n : Int) : Bool :=
  match lookupKey s.contents n with
  | some (.dirents _) => false
  | _ => true

/-!  ## Directory-entry manipulation (Inode.AddChild / RemoveChild cores)

`Inode.AddChild` scans `entries` for the first slot with `Type ==
DT_Unknown`; if found it overwrites that single index in place with the
new entry, forcing `Offset = index+1`; otherwise it appends the entry
with `Offset = len(entries)+1`.  `Inode.RemoveChild` locates the first
entry whose `Name` matches (`findChild`, fatal if absent) and overwrites
that index with the zero dirent `{Type: DT_Unknown, Offset: index+1}`.
The functions below perform exactly that first-match scan-and-overwrite
in one pass, carrying the absolute index `i` of the current head so the
written `Offset` field is the absolute position plus one. -/

/-- Entry list after `Inode.AddChild(id, name, dt)` (see section comment). -/
def addChildEntries : List Dirent → Nat → Int → String → Nat → List Dirent
  | [], i, id, name, dt => [{ offset := i + 1, inode := id, name := name, typ := dt }]
  | e :: t, i, id, name, dt =>
    if e.typ = dtUnknown then { offset := i + 1, inode := id, name := name, typ := dt } :: t
    else e :: addChildEntries t (i + 1) id name dt

/-- Entry list after `Inode.RemoveChild(name)`; `none` when no entry has
this name (the Go code panics there). -/
def removeChildEntries : List Dirent → Nat → String → Option (List Dirent)
  | [], _, _ => none
  | e :: t, i, name =>
    if e.name = name then some (freeDirent i :: t)
    else (removeChildEntries t (i + 1) name).map (e :: ·)

/-- `Inode.findChild2` / `Inode.LookUpChild` scan: first entry whose
`Name` equals `name` (free slots carry the empty name). -/
def findChild : List Dirent → String → Option Dirent
  | [], _ => none
  | e :: t, name => if e.name = name then some e else findChild t name

/-- `fuseutil.WriteDirent` output size: a 24-byte fixed header plus the
name, padded up to a multiple of 8; 0 when it does not fit in `room`. -/
def writeDirentSize (name : String) (room : Nat) : Nat :=
  let padded := (24 + name.length + 7) / 8 * 8
  if room < padded then 0 else padded

/-- The byte count produced by `Inode.ReadDir`'s packing loop: skip free
entries, stop at the first entry that does not fit. -/
def readDirBytes : List Dirent → Nat → Nat
  | [], _ => 0
  | e :: t, room =>
    if e.typ = dtUnknown then readDirBytes t room
    else
      let sz := writeDirentSize e.name room
      if sz = 0 then 0 else sz + readDirBytes t (room - sz)

/-!  ## Inode methods (pkg/fs/inode.go)

Each method returns the store writes it issues, in program order,
together with the updated in-memory `Inode` struct and its result. -/

/-- `NewInode`: build the inode with `Mtime = Crtime = now`, persist it,
and persist an empty entry list as its blob when it is a directory. -/
def newInode (inumber size nlink : Int) (mode : Nat) (atime ctime uid gid now : Int) :
    List Ev × InodeData :=
  let ind : InodeData :=
    { inumber := inumber, size := size, nlink := nlink, mode := mode,
      atime := atime, mtime := now, ctime := ctime, crtime := now,
      uid := uid, gid := gid, toBeDeleted := false }
  (Ev.putInode ind ::
    (if isDirMode mode then [Ev.putBlob inumber (Blob.dirents [])] else []), ind)

/-- `Inode.AddChild`: update `Mtime`/`Atime`, rewrite the entry list,
persist the blob then the inode.  `none` when the directory blob is
missing (`getChildrenOrDie` panics). -/
def inodeAddChild (s : Store) (ind : InodeData) (now : Int)
    (id : Int) (name : String) (dt : Nat) : Option (List Ev × InodeData) :=
  (getChildren s ind.inumber).map fun entries =>
    let ind' := { ind with mtime := now, atime := now }
    let entries' := addChildEntries entries 0 id name dt
    ([Ev.putBlob ind.inumber (Blob.dirents entries'), Ev.putInode ind'], ind')

/-- `Inode.RemoveChild`: update `Mtime`/`Atime`, mark the slot free,
persist the blob then the inode.  `none` when the blob is missing or the
name is absent (both panic in Go). -/
def inodeRemoveChild (s : Store) (ind : InodeData) (now : Int)
    (name : String) : Option (List Ev × InodeData) :=
  match getChildren s ind.inumber with
  | none => none
  | some entries =>
    match removeChildEntries entries 0 name with
    | none => none
    | some entries' =>
      let ind' := { ind with mtime := now, atime := now }
      some ([Ev.putBlob ind.inumber (Blob.dirents entries'), Ev.putInode ind'], ind')

/-- `Inode.ReadDir`: update `Atime`, persist the inode, then pack entries
from `offset` into a buffer of `room` bytes; returns the byte count. -/
def inodeReadDir (s : Store) (ind : InodeData) (now : Int)
    (room : Nat) (offset : Nat) : Option (List Ev × InodeData × Nat) :=
  (getChildren s ind.inumber).map fun entries =>
    let ind' := { ind with atime := now }
    ([Ev.putInode ind'], ind', readDirBytes (entries.drop offset) room)

/-- `Inode.ReadAt`: load the blob; `off` past the end is EOF with zero
bytes; otherwise copy `min (buf length) (remaining)` bytes into the
buffer; EOF is signalled when the buffer was not filled.  Returns the
buffer after Go's `copy(p, content[off:])`, the byte count, and the EOF
flag.  No store writes. -/
def inodeReadAt (s : Store) (ind : InodeData) (buf : List Nat) (off : Nat) :
    List Nat × Nat × Bool :=
  let content := readContent s ind.inumber
  if content.length < off then (buf, 0, true)
  else
    let src := content.drop off
    let n := min buf.length src.length
    (src.take n ++ buf.drop n, n, n < buf.length)

/-- `Inode.WriteAt`: update times, load the blob, zero-pad it when
`off + len p` exceeds its length (also updating `Size`), copy `p` in at
`off`, persist the blob then the inode.  Returns `len p`. -/
def inodeWriteAt (s : Store) (ind : InodeData) (now : Int)
    (p : List Nat) (off : Nat) : List Ev × InodeData × Nat :=
  let ind1 := { ind with atime := now, mtime := now }
  let content := readContent s ind.inumber
  let newLen := off + p.length
  let grow := content.length < newLen
  let content1 := if grow then content ++ List.replicate (newLen - content.length) 0 else content
  let ind2 := if grow then { ind1 with size := (newLen : Int) } else ind1
  let newContent := content1.take off ++ p ++ content1.drop (off + p.length)
  ([Ev.putBlob ind.inumber (Blob.bytes newContent), Ev.putInode ind2], ind2, p.length)

/-- `Inode.SetAttributes(size?, mode?, mtime?)`: set `Atime`/`Mtime`/
`Ctime` to now; when `size` is given, truncate or zero-extend the blob
to exactly `size` bytes, persist it, and set `Size`; then apply `mode`
and `mtime` overrides and persist the inode. -/
def inodeSetAttributes (s : Store) (ind : InodeData) (now : Int)
    (size : Option Nat) (mode : Option Nat) (mtime : Option Int) :
    List Ev × InodeData :=
  let ind1 := { ind with atime := now, mtime := now, ctime := now }
  let step2 :=
    match size with
    | none => (([] : List Ev), ind1)
    | some sz =>
      let content := readContent s ind.inumber
      let newContent :=
        if sz ≤ content.length then content.take sz
        else content ++ List.replicate (sz - content.length) 0
      ([Ev.putBlob ind.inumber (Blob.bytes newContent)], { ind1 with size := (sz : Int) })
  let ind2 := step2.2
  let ind3 := match mode with | none => ind2 | some m => { ind2 with mode := m }
  let ind4 := match mtime with | none => ind3 | some t => { ind3 with mtime := t }
  (step2.1 ++ [Ev.putInode ind4], ind4)

/-- `Inode.Fallocate(mode, offset, length)`: non-zero mode fails with
`ENOSYS`; otherwise, when `offset+length` exceeds the blob length,
zero-extend, set `Size` and the times, and persist the inode *then* the
blob (note the order in the source); no writes when the file does not
grow. -/
def inodeFallocate (s : Store) (ind : InodeData) (now : Int)
    (mode : Nat) (offset length : Nat) : List Ev × InodeData × Option FsErr :=
  if mode ≠ 0 then ([], ind, some FsErr.ENOSYS)
  else
    let newSize := offset + length
    let content := readContent s ind.inumber
    if content.length < newSize then
      let newContent := content ++ List.replicate (newSize - content.length) 0
      let ind' := { ind with size := (newSize : Int), atime := now, mtime := now, ctime := now }
      ([Ev.putInode ind', Ev.putBlob ind.inumber (Blob.bytes newContent)], ind', none)
    else ([], ind, none)

/-- `Inode.DecrRef(N)`: decrement `Nlink` by `N`, clamp at zero, persist,
and return the new value. -/
def inodeDecrRef (ind : InodeData) (n : Nat) : List Ev × InodeData × Int :=
  let nl0 := ind.nlink - (n : Int)
  let nl := if nl0 < 0 then 0 else nl0
  let ind' := { ind with nlink := nl }
  ([Ev.putInode ind'], ind', nl)

/-- `Inode.Del` → `ImmuDbClient.DeleteInode`: delete the inode row, then
the content row. -/
def inodeDel (ind : InodeData) : List Ev :=
  [Ev.delInode ind.inumber, Ev.delBlob ind.inumber]

/-!  ## Filesystem core handlers (pkg/fs/immufs.go and companions)

Every handler first rejects a zero caller pid with `EINVAL`.  A `none`
result models a panic (`getInodeOrDie` / `getChildrenOrDie` /
`RemoveChild` that cannot happen for requests the kernel issues against
a consistent store).  Each handler returns the store writes it issues,
in order, and the errno it returns to the kernel (`none` = success). -/

/-- `SELECT MAX(inumber) FROM inode`, folded over the rows; the Go zero
value 0 stands in for SQL NULL on an empty table (the scan error is
discarded by `NextInumber`). -/
def maxInumber (l : List (Int × InodeData)) : Int :=
  l.foldl (fun m p => max m p.1) 0

/-- `ImmuDbClient.NextInumber` / `Immufs.nextInumber`: the maximum
existing inumber plus one (1 on an empty table). -/
def nextInumber (s : Store) : Int := maxInumber s.inodes + 1

/-- `Immufs.SetInodeAttributes`: computes `EBADF` for a non-handle-backed
truncate to a non-zero size, fetches the inode, and unconditionally
delegates to `Inode.SetAttributes` before returning the error. -/
def fsSetInodeAttributes (s : Store) (now : Int) (pid : Nat) (inum : Int)
    (size : Option Nat) (handle : Option Nat) (mode : Option Nat) (mtime : Option Int) :
    Option (List Ev × Option FsErr) :=
  if pid = 0 then some ([], some FsErr.EINVAL)
  else
    let err : Option FsErr :=
      match size, handle with
      | some sz, none => if sz ≠ 0 then some FsErr.EBADF else none
      | _, _ => none
    match getInode s inum with
    | none => none
    | some ind =>
      let r := inodeSetAttributes s ind now size mode mtime
      some (r.1, err)

/-- `Immufs.createFile` (serving both `CreateFile` and `MkNode`, and with
`dt = dtDirectory` the shared shape of `MkDir`): `EEXIST` when the name
is present, otherwise allocate inode `nextInumber s` with size 0, nlink
1 and the given mode, then `AddChild` it into the parent. -/
def fsCreateFile (s : Store) (now : Int) (pid : Nat) (parent : Int)
    (name : String) (mode : Nat) (uid gid : Int) (dt : Nat) :
    Option (List Ev × Option FsErr) :=
  if pid = 0 then some ([], some FsErr.EINVAL)
  else
    match getInode s parent with
    | none => none
    | some par =>
      if !isDirMode par.mode then none
      else
        match getChildren s par.inumber with
        | none => none
        | some entries =>
          match findChild entries name with
          | some _ => some ([], some FsErr.EEXIST)
          | none =>
            let child := newInode (nextInumber s) 0 1 mode now now uid gid now
            let s1 := runEvs s child.1
            match inodeAddChild s1 par now child.2.inumber name dt with
            | none => none
            | some (evsA, _) => some (child.1 ++ evsA, none)

/-- `Immufs.LookUpInode`: find the name in the parent; on a miss return
`ENOENT`; on a hit bump the child's `Nlink`, set its `Atime`, persist it,
and return its inumber. -/
def fsLookUpInode (s : Store) (now : Int) (pid : Nat) (parent : Int)
    (name : String) : Option (List Ev × Option FsErr × Option Int) :=
  if pid = 0 then some ([], some FsErr.EINVAL, none)
  else
    match getInode s parent with
    | none => none
    | some par =>
      if !isDirMode par.mode then none
      else
        match getChildren s par.inumber with
        | none => none
        | some entries =>
          match findChild entries name with
          | none => some ([], some FsErr.ENOENT, none)
          | some d =>
            match getInode s d.inode with
            | none => none
            | some child =>
              let child' := { child with nlink := child.nlink + 1, atime := now }
              some ([Ev.putInode child'], none, some d.inode)

/-- `Immufs.WriteFile`: delegate to `Inode.WriteAt` (which persists blob
then inode), then persist the inode once more. -/
def fsWriteFile (s : Store) (now : Int) (pid : Nat) (inum : Int)
    (p : List Nat) (off : Nat) : Option (List Ev × Option FsErr) :=
  if pid = 0 then some ([], some FsErr.EINVAL)
  else
    match getInode s inum with
    | none => none
    | some ind =>
      if !isFileMode ind.mode then none
      else
        let r := inodeWriteAt s ind now p off
        some (r.1 ++ [Ev.putInode r.2.1], none)

/-- `Immufs.Fallocate`: fetch the inode and call `Inode.Fallocate`,
discarding its return value; the handler always returns success. -/
def fsFallocate (s : Store) (now : Int) (pid : Nat) (inum : Int)
    (mode offset length : Nat) : Option (List Ev × Option FsErr) :=
  if pid = 0 then some ([], some FsErr.EINVAL)
  else
    match getInode s inum with
    | none => none
    | some ind =>
      let r := inodeFallocate s ind now mode offset length
      some (r.1, none)

/-- `Immufs.ForgetInode`: `DecrRef(n)`; when the count reaches 0 on an
inode marked `ToBeDeleted`, delete the inode row and the content row. -/
def fsForgetInode (s : Store) (pid : Nat) (inum : Int) (n : Nat) :
    Option (List Ev × Option FsErr) :=
  if pid = 0 then some ([], some FsErr.EINVAL)
  else
    match getInode s inum with
    | none => none
    | some ind =>
      let r := inodeDecrRef ind n
      let evs2 := if r.2.2 = 0 ∧ r.2.1.toBeDeleted then inodeDel r.2.1 else []
      some (r.1 ++ evs2, none)

/-- Shared tail of `Immufs.Rename`: `AddChild` the new name into the
new parent, then `RemoveChild` the old name from the old parent struct
(times are overwritten inside each method, so the struct passed in needs
only the fetched row). -/
def fsRenameTail (s : Store) (newP oldP : InodeData) (now : Int)
    (childInode : Int) (childTyp : Nat) (newName oldName : String) :
    Option (List Ev) :=
  match inodeAddChild s newP now childInode newName childTyp with
  | none => none
  | some (evs2, _) =>
    match inodeRemoveChild (runEvs s evs2) oldP now oldName with
    | none => none
    | some (evs3, _) => some (evs2 ++ evs3)

/-- `Immufs.Rename`: look up the old name (`ENOENT` on a miss); when the
new name exists, reject a non-empty directory with `ENOTEMPTY` (the
emptiness probe is `ReadDir` into a 4096-byte buffer, which persists the
existing child's `Atime`), otherwise `RemoveChild` it; then `AddChild`
the new name and finally `RemoveChild` the old name from the old parent
struct fetched at entry. -/
def fsRename (s : Store) (now : Int) (pid : Nat) (oldParent : Int)
    (oldName : String) (newParent : Int) (newName : String) :
    Option (List Ev × Option FsErr) :=
  if pid = 0 then some ([], some FsErr.EINVAL)
  else
    match getInode s oldParent with
    | none => none
    | some oldP =>
      if !isDirMode oldP.mode then none
      else
        match getChildren s oldP.inumber with
        | none => none
        | some oldEntries =>
          match findChild oldEntries oldName with
          | none => some ([], some FsErr.ENOENT)
          | some childD =>
            match getInode s newParent with
            | none => none
            | some newP =>
              if !isDirMode newP.mode then none
              else
                match getChildren s newP.inumber with
                | none => none
                | some newEntries =>
                  match findChild newEntries newName with
                  | none =>
                    match fsRenameTail s newP oldP now childD.inode childD.typ newName oldName with
                    | none => none
                    | some evs => some (evs, none)
                  | some existingD =>
                    match getInode s existingD.inode with
                    | none => none
                    | some existing =>
                      if isDirMode existing.mode then
                        match inodeReadDir s existing now 4096 0 with
                        | none => none
                        | some (evs0, _, bytes) =>
                          if 0 < bytes then some (evs0, some FsErr.ENOTEMPTY)
                          else
                            let s0 := runEvs s evs0
                            match inodeRemoveChild s0 newP now newName with
                            | none => none
                            | some (evs1, _) =>
                              match fsRenameTail (runEvs s0 evs1) newP oldP now childD.inode childD.typ newName oldName with
                              | none => none
                              | some evs => some (evs0 ++ evs1 ++ evs, none)
                      else
                        match inodeRemoveChild s newP now newName with
                        | none => none
                        | some (evs1, _) =>
                          match fsRenameTail (runEvs s evs1) newP oldP now childD.inode childD.typ newName oldName with
                          | none => none
                          | some evs => some (evs1 ++ evs, none)

/-!  ## Invariants and the operation step relation -/

/-- Size invariant: every visible regular-file inode row has a byte blob
(or none) whose length equals its `size` field. -/
def FileSizeInv (s : Store) : Prop :=
  ∀ n ind, getInode s n = some ind → isFileMode ind.mode = true →
    fileBlobOK s n = true ∧ ind.size = ((readContent s n).length : Int)

/-- One completed state-mutating operation of the filesystem core, as the
kernel would issue it: the hypotheses carried by each constructor are
facts the kernel/transport guarantees (a successful handler run; for
`create`, freshness of the allocated inumber, which the never-reuse
allocation discipline provides; for the file operations, that the target
really is a regular file, since the kernel never routes truncate, write
or fallocate to a directory). -/
inductive FsStep : Store → Store → Prop where
  | create : ∀ s now pid parent name mode uid gid dt evs err,
      getInode s (nextInumber s) = none →
      lookupKey s.contents (nextInumber s) = none →
      fsCreateFile s now pid parent name mode uid gid dt = some (evs, err) →
      FsStep s (runEvs s evs)
  | write : ∀ s now pid inum p off evs err,
      fsWriteFile s now pid inum p off = some (evs, err) →
      FsStep s (runEvs s evs)
  | setAttr : ∀ s now pid inum size handle mode mtime ind evs err,
      getInode s inum = some ind → isFileMode ind.mode = true →
      fsSetInodeAttributes s now pid inum size handle mode mtime = some (evs, err) →
      FsStep s (runEvs s evs)
  | fallocate : ∀ s now pid inum mode offset length ind evs err,
      getInode s inum = some ind → isFileMode ind.mode = true →
      fsFallocate s now pid inum mode offset length = some (evs, err) →
      FsStep s (runEvs s evs)
  | forget : ∀ s pid inum n evs err,
      fsForgetInode s pid inum n = some (evs, err) →
      FsStep s (runEvs s evs)

/-- Offset invariant of a serialized directory-entry list: the entry at
0-based index `i` carries `offset = i + 1`, free slots included. -/
def OffsetInv (es : List Dirent) : Prop :=
  ∀ i, i < es.length → (es.getD i (freeDirent 0)).offset = i + 1

/-!  ## Concrete fixtures -/

/-- A regular file inode (mode 0644), inumber 2, size 3. -/
def file2 : InodeData :=
  { inumber := 2, size := 3, nlink := 1, mode := 420,
    atime := 0, mtime := 0, ctime := 0, crtime := 0,
    uid := 1000, gid := 1000, toBeDeleted := false }

/-- The root directory inode (mode 0700 | dir). -/
def root1 : InodeData :=
  { inumber := 1, size := 0, nlink := 1, mode := 2147484096,
    atime := 0, mtime := 0, ctime := 0, crtime := 0,
    uid := 1000, gid := 1000, toBeDeleted := false }

/-- A store with the root directory holding entry `f` for inode 2, and
file 2 with content `[10, 11, 12]`. -/
def store0 : Store :=
  { inodes := [(1, root1), (2, file2)],
    contents :=
      [(1, Blob.dirents [{ offset := 1, inode := 2, name := "f", typ := dtFile }]),
       (2, Blob.bytes [10, 11, 12])] }

/-!  ## Association-list and event lemmas -/

theorem lookupKey_upsertKey {α : Type} (l : List (Int × α)) (k k' : Int) (v : α) :
    lookupKey (upsertKey l k v) k' = if k = k' then some v else lookupKey l k' := by
  induction l with
  | nil => simp [upsertKey, lookupKey]
  | cons h t ih =>
    obtain ⟨hk, hv⟩ := h
    by_cases hkk : hk = k
    · subst hkk
      simp [upsertKey, lookupKey]
      by_cases hkk' : hk = k' <;> simp [hkk', lookupKey]
    · simp [upsertKey, hkk, lookupKey]
      by_cases hkk' : hk = k'
      · subst hkk'
        have : ¬ k = hk := fun h => hkk h.symm
        simp [this, lookupKey]
      · simp [hkk', ih]

theorem lookupKey_eraseKey {α : Type} (l : List (Int × α)) (k k' : Int) :
    lookupKey (eraseKey l k) k' = if k = k' then none else lookupKey l k' := by
  induction l with
  | nil => simp [eraseKey, lookupKey]
  | cons h t ih =>
    obtain ⟨hk, hv⟩ := h
    by_cases hkk : hk = k
    · subst hkk
      have h1 : eraseKey ((hk, hv) :: t) hk = eraseKey t hk := by
        simp [eraseKey, List.filter_cons]
      rw [h1, ih]
      by_cases hkk' : hk = k' <;> simp [hkk', lookupKey]
    · have h1 : eraseKey ((hk, hv) :: t) k = (hk, hv) :: eraseKey t k := by
        simp [eraseKey, List.filter_cons, hkk]
      rw [h1]
      by_cases hkk' : hk = k'
      · subst hkk'
        have hne : ¬ k = hk := fun hh => hkk hh.symm
        simp [lookupKey, hne]
      · simp [lookupKey, hkk', ih]

theorem runEvs_nil (s : Store) : runEvs s [] = s := rfl

theorem runEvs_cons (s : Store) (e : Ev) (evs : List Ev) :
    runEvs s (e :: evs) = runEvs (applyEv s e) evs := rfl

theorem runEvs_append (s : Store) (evs1 evs2 : List Ev) :
    runEvs s (evs1 ++ evs2) = runEvs (runEvs s evs1) evs2 := by
  simp [runEvs, List.foldl_append]

theorem getInode_putInode (s : Store) (ind : InodeData) (n : Int) :
    getInode (applyEv s (Ev.putInode ind)) n =
      if ind.inumber = n then some ind else getInode s n := by
  simp [applyEv, getInode, lookupKey_upsertKey]

theorem getInode_putBlob (s : Store) (m n : Int) (b : Blob) :
    getInode (applyEv s (Ev.putBlob m b)) n = getInode s n := rfl

theorem getInode_delInode (s : Store) (m n : Int) :
    getInode (applyEv s (Ev.delInode m)) n =
      if m = n then none else getInode s n := by
  simp [applyEv, getInode, lookupKey_eraseKey]

theorem getInode_delBlob (s : Store) (m n : Int) :
    getInode (applyEv s (Ev.delBlob m)) n = getInode s n := rfl

theorem contents_putBlob (s : Store) (m n : Int) (b : Blob) :
    lookupKey (applyEv s (Ev.putBlob m b)).contents n =
      if m = n then some b else lookupKey s.contents n := by
  simp [applyEv, lookupKey_upsertKey]

theorem contents_putInode (s : Store) (ind : InodeData) (n : Int) :
    lookupKey (applyEv s (Ev.putInode ind)).contents n = lookupKey s.contents n := rfl

theorem contents_delInode (s : Store) (m n : Int) :
    lookupKey (applyEv s (Ev.delInode m)).contents n = lookupKey s.contents n := rfl

theorem contents_delBlob (s : Store) (m n : Int) :
    lookupKey (applyEv s (Ev.delBlob m)).contents n =
      if m = n then none else lookupKey s.contents n := by
  simp [applyEv, lookupKey_eraseKey]

/-!  ## Small mode-bit facts -/

theorem isDirMode_false_of_isFileMode (m : Nat) (h : isFileMode m = true) :
    isDirMode m = false := by
  simp [isFileMode] at h
  exact h.1

/-!  ## Claim C2: fallocate with non-zero mode -/

/-- C2 counterexample: a `Fallocate` request with `mode = 1` on file
inode 2 returns success (`none`), not `ENOSYS`, to the kernel caller:
`Immufs.Fallocate` discards the error computed by `Inode.Fallocate`. -/
theorem c2_fallocate_nonzero_mode_counterexample :
    fsFallocate store0 99 7 2 1 0 5 = some ([], none) ∧
    some (([] : List Ev), (none : Option FsErr)) ≠ some ([], some FsErr.ENOSYS) := by
  constructor
  · rfl
  · decide

/-- C2 amended: for `mode ≠ 0`, `Inode.Fallocate` computes `ENOSYS` and
issues no store writes (size and blob are unchanged), but
`Immufs.Fallocate` discards that error, so the kernel caller receives
success while the store is untouched. -/
theorem c2_fallocate_nonzero_mode_amended
    (s : Store) (now : Int) (pid : Nat) (inum : Int) (mode offset length : Nat)
    (ind : InodeData) (hpid : pid ≠ 0) (hind : getInode s inum = some ind)
    (hmode : mode ≠ 0) :
    inodeFallocate s ind now mode offset length = ([], ind, some FsErr.ENOSYS) ∧
    fsFallocate s now pid inum mode offset length = some ([], none) ∧
    runEvs s [] = s := by
  refine ⟨?_, ?_, rfl⟩
  · simp [inodeFallocate, hmode]
  · simp [fsFallocate, hpid, hind, inodeFallocate, hmode]

/-- C2 witness: the amended theorem at `mode = 1` on `store0`. -/
theorem c2_fallocate_nonzero_mode_amended_witness :
    inodeFallocate store0 file2 99 1 0 5 = ([], file2, some FsErr.ENOSYS) ∧
    fsFallocate store0 99 7 2 1 0 5 = some ([], none) ∧
    runEvs store0 [] = store0 :=
  c2_fallocate_nonzero_mode_amended store0 99 7 2 1 0 5 file2
    (by decide) (by rfl) (by decide)

/-!  ## Claim C1: Setattr EBADF path -/

/-- C1 counterexample: `SetInodeAttributes` with `size = 5`, no handle,
on file inode 2 (persisted size 3) returns `EBADF` *and* persists the
truncation: the stored inode's size becomes 5 and the blob is padded to
5 bytes, so the target inode's persisted state is changed. -/
theorem c1_setattr_ebadf_counterexample :
    (fsSetInodeAttributes store0 99 7 2 (some 5) none none none).map
        (fun r => (r.2, getInode (runEvs store0 r.1) 2,
                   (readContent (runEvs store0 r.1) 2).length)) =
      some (some FsErr.EBADF,
            some { file2 with atime := 99, mtime := 99, ctime := 99, size := 5 },
            5) ∧
    file2.size = 3 := by
  constructor
  · rfl
  · rfl

/-- C1 amended: when `size` is non-nil, `handle` is nil and `*size ≠ 0`,
the handler returns `EBADF` but nonetheless delegates to
`Inode.SetAttributes`: the same store writes are issued as in the
success path, and the persisted inode's size becomes `*size`. -/
theorem c1_setattr_ebadf_still_delegates
    (s : Store) (now : Int) (pid : Nat) (inum : Int) (sz : Nat)
    (mode : Option Nat) (mtime : Option Int) (ind : InodeData)
    (hpid : pid ≠ 0) (hind : getInode s inum = some ind)
    (hkey : ind.inumber = inum) (hsz : sz ≠ 0) :
    fsSetInodeAttributes s now pid inum (some sz) none mode mtime =
      some ((inodeSetAttributes s ind now (some sz) mode mtime).1, some FsErr.EBADF) ∧
    getInode (runEvs s (inodeSetAttributes s ind now (some sz) mode mtime).1) inum =
      some (inodeSetAttributes s ind now (some sz) mode mtime).2 ∧
    (inodeSetAttributes s ind now (some sz) mode mtime).2.size = (sz : Int) := by
  refine ⟨?_, ?_, ?_⟩
  · simp [fsSetInodeAttributes, hpid, hind, hsz]
  · rcases mode with _ | m <;> rcases mtime with _ | t <;>
      simp [inodeSetAttributes, runEvs, getInode_putInode, hkey]
  · rcases mode with _ | m <;> rcases mtime with _ | t <;>
      simp [inodeSetAttributes]

/-- C1 witness: the amended theorem on `store0`, file inode 2, size 5. -/
theorem c1_setattr_ebadf_still_delegates_witness :
    fsSetInodeAttributes store0 99 7 2 (some 5) none none none =
      some ((inodeSetAttributes store0 file2 99 (some 5) none none).1, some FsErr.EBADF) ∧
    getInode (runEvs store0 (inodeSetAttributes store0 file2 99 (some 5) none none).1) 2 =
      some (inodeSetAttributes store0 file2 99 (some 5) none none).2 ∧
    (inodeSetAttributes store0 file2 99 (some 5) none none).2.size = ((5 : Nat) : Int) :=
  c1_setattr_ebadf_still_delegates store0 99 7 2 5 none none file2
    (by decide) (by rfl) (by rfl) (by decide)

/-!  ## Claim C3: blob-before-inode write order -/

/-- The operation issues exactly a content-table write followed by an
inode-table write. -/
def blobThenInode (evs : List Ev) : Prop :=
  ∃ n b ind, evs = [Ev.putBlob n b, Ev.putInode ind]

/-- The operation issues exactly an inode-table write followed by a
content-table write. -/
def inodeThenBlob (evs : List Ev) : Prop :=
  ∃ ind n b, evs = [Ev.putInode ind, Ev.putBlob n b]

/-- C3 counterexample: a growing `Inode.Fallocate` (file of length 3,
`offset+length = 5`) issues its two store writes with the inode write
*first* and the blob write second, contradicting the claimed
blob-then-inode order. -/
theorem c3_fallocate_write_order_counterexample :
    (inodeFallocate store0 file2 99 0 0 5).1.map isBlobWrite = [false, true] ∧
    (inodeFallocate store0 file2 99 0 0 5).1.map isInodeWrite = [true, false] := by
  constructor
  · rfl
  · rfl

/-- C3 amended: `write_at`, `set_attributes` with a size, `add_child`
and `remove_child` issue the blob write before the inode write, but a
growing `fallocate` issues the inode write before the blob write. -/
theorem c3_write_order_amended :
    (∀ s ind now p off, blobThenInode (inodeWriteAt s ind now p off).1) ∧
    (∀ s ind now sz mode mtime,
      blobThenInode (inodeSetAttributes s ind now (some sz) mode mtime).1) ∧
    (∀ s ind now id name dt evs ind',
      inodeAddChild s ind now id name dt = some (evs, ind') → blobThenInode evs) ∧
    (∀ s ind now name evs ind',
      inodeRemoveChild s ind now name = some (evs, ind') → blobThenInode evs) ∧
    (∀ s ind now offset length,
      (readContent s ind.inumber).length < offset + length →
      inodeThenBlob (inodeFallocate s ind now 0 offset length).1) := by
  refine ⟨?_, ?_, ?_, ?_, ?_⟩
  · intro s ind now p off
    exact ⟨_, _, _, rfl⟩
  · intro s ind now sz mode mtime
    rcases mode with _ | m <;> rcases mtime with _ | t <;> exact ⟨_, _, _, rfl⟩
  · intro s ind now id name dt evs ind' h
    simp only [inodeAddChild, Option.map_eq_some'] at h
    obtain ⟨entries, _, h2⟩ := h
    exact ⟨_, _, _, congrArg Prod.fst h2.symm⟩
  · intro s ind now name evs ind' h
    rcases h1 : getChildren s ind.inumber with _ | entries
    · simp [inodeRemoveChild, h1] at h
    · rcases h2 : removeChildEntries entries 0 name with _ | entries'
      · simp [inodeRemoveChild, h1, h2] at h
      · simp only [inodeRemoveChild, h1, h2, Option.some.injEq, Prod.mk.injEq] at h
        exact ⟨_, _, _, h.1.symm⟩
  · intro s ind now offset length h
    have hrw : inodeFallocate s ind now 0 offset length =
        ([Ev.putInode { ind with size := ((offset + length : Nat) : Int), atime := now, mtime := now, ctime := now },
          Ev.putBlob ind.inumber (Blob.bytes (readContent s ind.inumber ++
            List.replicate (offset + length - (readContent s ind.inumber).length) 0))],
         { ind with size := ((offset + length : Nat) : Int), atime := now, mtime := now, ctime := now }, none) := by
      simp [inodeFallocate, h]
    rw [hrw]
    exact ⟨_, _, _, rfl⟩

/-- C3 witness: blob-then-inode for a concrete `write_at`, inode-then-
blob for a concrete growing `fallocate`. -/
theorem c3_write_order_amended_witness :
    blobThenInode (inodeWriteAt store0 file2 99 [7] 0).1 ∧
    inodeThenBlob (inodeFallocate store0 file2 99 0 0 5).1 :=
  ⟨c3_write_order_amended.1 store0 file2 99 [7] 0,
   c3_write_order_amended.2.2.2.2 store0 file2 99 0 5 (by decide)⟩

/-!  ## Claim C6: directory-entry offset stability scenario -/

/-- C6: adding `a, b, c, d` to an empty directory, removing `b` and `c`,
leaves `a` at offset 1, `d` at offset 4 and two free slots preserving
offsets 2 and 3; a subsequent add of `e` fills the first free slot,
receiving offset 2. -/
theorem c6_directory_offset_scenario :
    (removeChildEntries
        (addChildEntries
          (addChildEntries
            (addChildEntries
              (addChildEntries [] 0 2 "a" dtFile) 0 3 "b" dtFile)
            0 4 "c" dtFile)
          0 5 "d" dtFile)
        0 "b").bind (fun es => removeChildEntries es 0 "c") =
      some [{ offset := 1, inode := 2, name := "a", typ := dtFile },
            freeDirent 1, freeDirent 2,
            { offset := 4, inode := 5, name := "d", typ := dtFile }] ∧
    addChildEntries
        [{ offset := 1, inode := 2, name := "a", typ := dtFile },
         freeDirent 1, freeDirent 2,
         { offset := 4, inode := 5, name := "d", typ := dtFile }]
        0 6 "e" dtFile =
      [{ offset := 1, inode := 2, name := "a", typ := dtFile },
       { offset := 2, inode := 6, name := "e", typ := dtFile },
       freeDirent 2,
       { offset := 4, inode := 5, name := "d", typ := dtFile }] := by
  constructor
  · rfl
  · rfl

/-!  ## Claim C5: inumber allocation -/

theorem le_foldl_max (l : List (Int × InodeData)) (a : Int) :
    a ≤ l.foldl (fun m p => max m p.1) a := by
  induction l generalizing a with
  | nil => simp
  | cons q t ih => exact le_trans (le_max_left a q.1) (ih _)

theorem key_le_foldl_max (l : List (Int × InodeData)) (a k : Int)
    (hk : k ∈ l.map Prod.fst) : k ≤ l.foldl (fun m p => max m p.1) a := by
  induction l generalizing a with
  | nil => simp at hk
  | cons q t ih =>
    simp only [List.map_cons, List.mem_cons] at hk
    rcases hk with h | h
    · subst h
      exact le_trans (le_max_right a q.1) (le_foldl_max t _)
    · exact ih _ h

theorem foldl_max_mem (l : List (Int × InodeData)) (a : Int) :
    l.foldl (fun m p => max m p.1) a = a ∨
      l.foldl (fun m p => max m p.1) a ∈ l.map Prod.fst := by
  induction l generalizing a with
  | nil => exact Or.inl rfl
  | cons q t ih =>
    simp only [List.foldl_cons, List.map_cons, List.mem_cons]
    rcases ih (max a q.1) with h | h
    · rcases max_choice a q.1 with hm | hm
      · exact Or.inl (by rw [h, hm])
      · exact Or.inr (Or.inl (by rw [h, hm]))
    · exact Or.inr (Or.inr h)

theorem upsertKey_append {α : Type} (l : List (Int × α)) (k : Int) (v : α)
    (h : ∀ p ∈ l, p.1 ≠ k) : upsertKey l k v = l ++ [(k, v)] := by
  induction l with
  | nil => rfl
  | cons q t ih =>
    obtain ⟨qk, qv⟩ := q
    have hq : qk ≠ k := h (qk, qv) (by simp)
    simp only [upsertKey, if_neg hq, List.cons_append, List.cons.injEq, true_and]
    exact ih (fun p hp => h p (by simp [hp]))

theorem foldl_max_le (l : List (Int × InodeData)) (a B : Int)
    (ha : a ≤ B) (h : ∀ p ∈ l, p.1 ≤ B) :
    l.foldl (fun m p => max m p.1) a ≤ B := by
  induction l generalizing a with
  | nil => simpa using ha
  | cons q t ih =>
    simp only [List.foldl_cons]
    exact ih _ (max_le ha (h q (by simp))) (fun p hp => h p (by simp [hp]))

/-- C5 (amended): `next_inumber` is 1 on an empty inode table; it is
strictly greater than every inumber *currently* in the table; allocating
it bumps the next allocation by exactly one (so consecutive allocations
with no intervening deletion are strictly increasing); on a non-empty
table with non-negative inumbers it returns the maximum existing inumber
plus 1; and deleting an inumber that bounds the table from above (at
least 1) drops the next allocation to at most that inumber — so deleted
inumbers ARE reused. -/
theorem c5_next_inumber_allocation (s : Store) :
    (s.inodes = [] → nextInumber s = 1) ∧
    (∀ k ∈ s.inodes.map Prod.fst, k < nextInumber s) ∧
    (∀ ind : InodeData,
      nextInumber { inodes := upsertKey s.inodes (nextInumber s) ind,
                    contents := s.contents } = nextInumber s + 1) ∧
    ((∀ k ∈ s.inodes.map Prod.fst, 0 ≤ k) → s.inodes ≠ [] →
      ∃ m ∈ s.inodes.map Prod.fst,
        (∀ k ∈ s.inodes.map Prod.fst, k ≤ m) ∧ nextInumber s = m + 1) ∧
    (∀ k : Int, 1 ≤ k → (∀ k' ∈ s.inodes.map Prod.fst, k' ≤ k) →
      nextInumber { inodes := eraseKey s.inodes k, contents := s.contents } ≤ k) := by
  refine ⟨?_, ?_, ?_, ?_, ?_⟩
  · intro h
    simp [nextInumber, maxInumber, h]
  · intro k hk
    have := key_le_foldl_max s.inodes 0 k hk
    simp only [nextInumber, maxInumber]
    omega
  · intro ind
    have hfresh : ∀ p ∈ s.inodes, p.1 ≠ nextInumber s := by
      intro p hp
      have hmem : p.1 ∈ s.inodes.map Prod.fst := List.mem_map_of_mem Prod.fst hp
      have := key_le_foldl_max s.inodes 0 p.1 hmem
      simp only [nextInumber, maxInumber] at this ⊢
      omega
    have hrw := upsertKey_append s.inodes (nextInumber s) ind hfresh
    simp only [nextInumber, maxInumber] at hrw ⊢
    rw [hrw, List.foldl_append]
    simp only [List.foldl_cons, List.foldl_nil]
    have h0 : (0 : Int) ≤ s.inodes.foldl (fun m p => max m p.1) 0 := le_foldl_max _ 0
    omega
  · intro hnn hne
    rcases foldl_max_mem s.inodes 0 with h | h
    · obtain ⟨q, t, hl⟩ : ∃ q t, s.inodes = q :: t := by
        rcases hqt : s.inodes with _ | ⟨q, t⟩
        · exact absurd hqt hne
        · exact ⟨q, t, rfl⟩
      have hq : q.1 ∈ s.inodes.map Prod.fst := by rw [hl]; simp
      have hle := key_le_foldl_max s.inodes 0 q.1 hq
      have h0 : (0 : Int) ≤ q.1 := hnn q.1 hq
      refine ⟨q.1, hq, ?_, ?_⟩
      · intro k hk
        have := key_le_foldl_max s.inodes 0 k hk
        omega
      · simp only [nextInumber, maxInumber]
        omega
    · exact ⟨_, h, fun k hk => key_le_foldl_max s.inodes 0 k hk, rfl⟩
  · intro k hk1 hkle
    have hall : ∀ p ∈ eraseKey s.inodes k, p.1 ≤ k - 1 := by
      intro p hp
      obtain ⟨hmem, hne⟩ : p ∈ s.inodes ∧ ¬p.1 = k := by
        simpa [eraseKey, List.mem_filter] using hp
      have := hkle p.1 (List.mem_map_of_mem Prod.fst hmem)
      omega
    have hb := foldl_max_le (eraseKey s.inodes k) 0 (k - 1) (by omega) hall
    simp only [nextInumber, maxInumber] at hb ⊢
    omega

/-- C5 witness: on `store0` every inumber is below `nextInumber`, the
maximum (2) is returned plus one, and after deleting inumber 2 the next
allocation is at most 2 (the deleted inumber is reused). -/
theorem c5_next_inumber_allocation_witness :
    (∀ k ∈ store0.inodes.map Prod.fst, k < nextInumber store0) ∧
    (∃ m ∈ store0.inodes.map Prod.fst,
      (∀ k ∈ store0.inodes.map Prod.fst, k ≤ m) ∧ nextInumber store0 = m + 1) ∧
    nextInumber { inodes := eraseKey store0.inodes 2,
                  contents := store0.contents } ≤ 2 :=
  ⟨(c5_next_inumber_allocation store0).2.1,
   (c5_next_inumber_allocation store0).2.2.2.1 (by decide) (by decide),
   (c5_next_inumber_allocation store0).2.2.2.2 2 (by decide) (by decide)⟩

/-!  ## Claim C7: DecrRef and Forget-triggered deletion -/

/-- A file inode that has lost its last name: `ToBeDeleted` is set. -/
def doomed3 : InodeData :=
  { inumber := 3, size := 2, nlink := 1, mode := 420,
    atime := 0, mtime := 0, ctime := 0, crtime := 0,
    uid := 1000, gid := 1000, toBeDeleted := true }

/-- A store holding the root and the doomed file inode 3 with a 2-byte blob. -/
def store1 : Store :=
  { inodes := [(1, root1), (3, doomed3)], contents := [(3, Blob.bytes [1, 2])] }

/-- C7: `DecrRef(n)` clamps `nlink` at `max 0 (nlink - n)`, persists the
updated inode and returns the new value; and a `ForgetInode` that brings
the count to 0 on a `ToBeDeleted` inode succeeds and erases both the
inode row and the content row. -/
theorem c7_decr_ref_and_forget_deletion
    (s : Store) (pid : Nat) (inum : Int) (n : Nat) (ind : InodeData)
    (hpid : pid ≠ 0) (hind : getInode s inum = some ind)
    (hkey : ind.inumber = inum) :
    inodeDecrRef ind n =
      ([Ev.putInode { ind with nlink := max 0 (ind.nlink - (n : Int)) }],
       { ind with nlink := max 0 (ind.nlink - (n : Int)) },
       max 0 (ind.nlink - (n : Int))) ∧
    (ind.toBeDeleted = true → ind.nlink ≤ (n : Int) →
      ∀ evs err, fsForgetInode s pid inum n = some (evs, err) →
        err = none ∧ getInode (runEvs s evs) inum = none ∧
        lookupKey (runEvs s evs).contents inum = none) := by
  have hm : (if ind.nlink - (n : Int) < 0 then (0 : Int) else ind.nlink - (n : Int)) =
      max 0 (ind.nlink - (n : Int)) := by
    rcases lt_or_le (ind.nlink - (n : Int)) 0 with hc | hc
    · rw [if_pos hc, max_eq_left hc.le]
    · rw [if_neg (not_lt.mpr hc), max_eq_right hc]
  have h1 : inodeDecrRef ind n =
      ([Ev.putInode { ind with nlink := max 0 (ind.nlink - (n : Int)) }],
       { ind with nlink := max 0 (ind.nlink - (n : Int)) },
       max 0 (ind.nlink - (n : Int))) := by
    simp only [inodeDecrRef]
    rw [hm]
  refine ⟨h1, ?_⟩
  intro htbd hle evs err heq
  have hz : max 0 (ind.nlink - (n : Int)) = 0 := max_eq_left (by omega)
  have hforget : fsForgetInode s pid inum n =
      some ([Ev.putInode { ind with nlink := max 0 (ind.nlink - (n : Int)) },
             Ev.delInode ind.inumber, Ev.delBlob ind.inumber], none) := by
    simp [fsForgetInode, hpid, hind, h1, hz, htbd, hle, inodeDel]
  rw [hforget] at heq
  simp only [Option.some.injEq, Prod.mk.injEq] at heq
  obtain ⟨hevs, herr⟩ := heq
  subst hevs
  subst herr
  refine ⟨rfl, ?_, ?_⟩
  · simp [runEvs, getInode_delBlob, getInode_delInode, getInode_putInode, hkey]
  · simp [runEvs, applyEv, lookupKey_eraseKey, hkey]

/-- C7 witness: forgetting inode 3 of `store1` with `n = 1` erases both
its inode row and its content row. -/
theorem c7_decr_ref_and_forget_deletion_witness :
    (none : Option FsErr) = none ∧
    getInode (runEvs store1 [Ev.putInode { doomed3 with nlink := 0 },
      Ev.delInode 3, Ev.delBlob 3]) 3 = none ∧
    lookupKey (runEvs store1 [Ev.putInode { doomed3 with nlink := 0 },
      Ev.delInode 3, Ev.delBlob 3]).contents 3 = none :=
  (c7_decr_ref_and_forget_deletion store1 7 3 1 doomed3 (by decide) (by rfl)
      (by rfl)).2 (by rfl) (by decide)
    [Ev.putInode { doomed3 with nlink := 0 }, Ev.delInode 3, Ev.delBlob 3] none (by rfl)

/-!  ## Claim C10: offsets equal index + 1, free slots included -/

/-- Offset invariant of the sublist starting at absolute index `k`. -/
def OffsetInvFrom (k : Nat) (es : List Dirent) : Prop :=
  ∀ i, i < es.length → (es.getD i (freeDirent 0)).offset = k + i + 1

theorem offsetInv_iff_from_zero (es : List Dirent) :
    OffsetInv es ↔ OffsetInvFrom 0 es := by
  unfold OffsetInv OffsetInvFrom
  simp

theorem offsetInvFrom_cons (k : Nat) (e : Dirent) (t : List Dirent)
    (h : OffsetInvFrom k (e :: t)) : OffsetInvFrom (k + 1) t := by
  intro i hi
  have := h (i + 1) (by simpa using Nat.succ_lt_succ hi)
  simpa [Nat.add_assoc, Nat.add_comm, Nat.add_left_comm] using this

theorem addChildEntries_offsetInvFrom (es : List Dirent) (k : Nat)
    (id : Int) (name : String) (dt : Nat) (h : OffsetInvFrom k es) :
    OffsetInvFrom k (addChildEntries es k id name dt) := by
  induction es generalizing k with
  | nil =>
    intro i hi
    simp only [addChildEntries, List.length_singleton] at hi ⊢
    interval_cases i
    simp
  | cons e t ih =>
    by_cases hfree : e.typ = dtUnknown
    · simp only [addChildEntries, if_pos hfree]
      intro i hi
      cases i with
      | zero => simp
      | succ j =>
        have := h (j + 1) (by simpa using hi)
        simpa using this
    · simp only [addChildEntries, if_neg hfree]
      intro i hi
      cases i with
      | zero => simpa using h 0 (by simp)
      | succ j =>
        have ht := ih (k + 1) (offsetInvFrom_cons k e t h)
        have := ht j (by simpa using hi)
        simp only [List.getD_cons_succ]
        omega

theorem removeChildEntries_offsetInvFrom (es : List Dirent) (k : Nat)
    (name : String) (es' : List Dirent)
    (hrm : removeChildEntries es k name = some es') (h : OffsetInvFrom k es) :
    OffsetInvFrom k es' := by
  induction es generalizing k es' with
  | nil => simp [removeChildEntries] at hrm
  | cons e t ih =>
    by_cases hname : e.name = name
    · simp only [removeChildEntries, if_pos hname, Option.some.injEq] at hrm
      subst hrm
      intro i hi
      cases i with
      | zero => simp [freeDirent]
      | succ j =>
        have := h (j + 1) (by simpa using hi)
        simpa using this
    · simp only [removeChildEntries, if_neg hname, Option.map_eq_some'] at hrm
      obtain ⟨t', hrm', rfl⟩ := hrm
      intro i hi
      cases i with
      | zero => simpa using h 0 (by simp)
      | succ j =>
        have ht := ih (k + 1) t' hrm' (offsetInvFrom_cons k e t h)
        have := ht j (by simpa using hi)
        simp only [List.getD_cons_succ]
        omega

/-- C10: the new-directory entry list (empty) satisfies the offset
invariant, and both `AddChild` and `RemoveChild` preserve it — the entry
at 0-based index `i` always carries `offset = i + 1`, free slots
included. -/
theorem c10_offset_invariant :
    OffsetInv [] ∧
    (∀ es id name dt, OffsetInv es → OffsetInv (addChildEntries es 0 id name dt)) ∧
    (∀ es name es', removeChildEntries es 0 name = some es' →
      OffsetInv es → OffsetInv es') := by
  refine ⟨?_, ?_, ?_⟩
  · intro i hi
    simp at hi
  · intro es id name dt h
    rw [offsetInv_iff_from_zero] at h ⊢
    exact addChildEntries_offsetInvFrom es 0 id name dt h
  · intro es name es' hrm h
    rw [offsetInv_iff_from_zero] at h ⊢
    exact removeChildEntries_offsetInvFrom es 0 name es' hrm h

/-- C10 witness: the invariant holds after gap-filling an add into a
concrete list with a free slot, and after removing a name. -/
theorem c10_offset_invariant_witness :
    OffsetInv (addChildEntries
      [freeDirent 0, { offset := 2, inode := 5, name := "x", typ := dtFile }]
      0 9 "y" dtFile) :=
  c10_offset_invariant.2.1
    [freeDirent 0, { offset := 2, inode := 5, name := "x", typ := dtFile }]
    9 "y" dtFile (by unfold OffsetInv; decide)

/-!  ## Claim C8: read-after-write -/

theorem readContent_putBlob_bytes (s : Store) (m n : Int) (d : List Nat) :
    readContent (applyEv s (Ev.putBlob m (Blob.bytes d))) n =
      if m = n then d else readContent s n := by
  unfold readContent
  rw [contents_putBlob]
  by_cases h : m = n <;> simp [h]

theorem readContent_putInode (s : Store) (ind : InodeData) (n : Int) :
    readContent (applyEv s (Ev.putInode ind)) n = readContent s n := rfl

theorem read_back_core (c1 p buf : List Nat) (off : Nat)
    (h : off + p.length ≤ c1.length) (hbuf : p.length ≤ buf.length) :
    (((c1.take off ++ p ++ c1.drop (off + p.length)).drop off).take
        (min buf.length ((c1.take off ++ p ++ c1.drop (off + p.length)).drop off).length)
      ++ buf.drop
        (min buf.length ((c1.take off ++ p ++ c1.drop (off + p.length)).drop off).length)).take
      p.length = p := by
  have htakelen : (c1.take off).length = off := by
    simp only [List.length_take]
    omega
  have hdrop : (c1.take off ++ p ++ c1.drop (off + p.length)).drop off =
      p ++ c1.drop (off + p.length) := by
    rw [List.append_assoc]
    nth_rewrite 1 [← htakelen]
    rw [List.drop_left]
  rw [hdrop]
  have hsrclen : p.length ≤ (p ++ c1.drop (off + p.length)).length := by simp
  have hminge : p.length ≤ min buf.length (p ++ c1.drop (off + p.length)).length :=
    le_min hbuf hsrclen
  have htklen : p.length ≤
      ((p ++ c1.drop (off + p.length)).take
        (min buf.length (p ++ c1.drop (off + p.length)).length)).length := by
    simp only [List.length_take]
    omega
  rw [List.take_append_of_le_length htklen, List.take_take,
    min_eq_left hminge, List.take_left]

theorem c8_core (s' : Store) (k : Int) (c1 p buf : List Nat) (off : Nat)
    (ind2 : InodeData)
    (hlen : off + p.length ≤ c1.length)
    (hread : readContent s' k = c1.take off ++ p ++ c1.drop (off + p.length))
    (hbuf : p.length ≤ buf.length) (hk : ind2.inumber = k) :
    ((inodeReadAt s' ind2 buf off).1).take p.length = p := by
  have hnclen : off ≤ (c1.take off ++ p ++ c1.drop (off + p.length)).length := by
    simp only [List.length_append, List.length_take, List.length_drop]
    omega
  simp only [inodeReadAt, hk, hread]
  rw [if_neg (not_lt.mpr hnclen)]
  exact read_back_core c1 p buf off hlen hbuf

/-- C8: after `write_at(p, off)` on a regular file, a `read_at` of a
buffer at least `len p` long at the same offset returns `p` as the first
`len p` bytes of the buffer. -/
theorem c8_read_after_write (s : Store) (ind : InodeData) (now : Int)
    (p buf : List Nat) (off : Nat)
    (hfile : isFileMode ind.mode = true) (hbuf : p.length ≤ buf.length) :
    ((inodeReadAt (runEvs s (inodeWriteAt s ind now p off).1)
        (inodeWriteAt s ind now p off).2.1 buf off).1).take p.length = p := by
  by_cases hg : (readContent s ind.inumber).length < off + p.length
  · refine c8_core (runEvs s (inodeWriteAt s ind now p off).1) ind.inumber
      (readContent s ind.inumber ++
        List.replicate (off + p.length - (readContent s ind.inumber).length) 0)
      p buf off _ ?_ ?_ hbuf ?_
    · simp only [List.length_append, List.length_replicate]
      omega
    · simp [inodeWriteAt, hg, runEvs, readContent_putInode, readContent_putBlob_bytes]
    · simp [inodeWriteAt, hg]
  · refine c8_core (runEvs s (inodeWriteAt s ind now p off).1) ind.inumber
      (readContent s ind.inumber) p buf off _ ?_ ?_ hbuf ?_
    · omega
    · simp [inodeWriteAt, hg, runEvs, readContent_putInode, readContent_putBlob_bytes]
    · simp [inodeWriteAt, hg]

/-- C8 witness: writing `[20, 21]` at offset 1 of file 2 in `store0` and
reading back 2 bytes at offset 1 returns `[20, 21]`. -/
theorem c8_read_after_write_witness :
    ((inodeReadAt (runEvs store0 (inodeWriteAt store0 file2 99 [20, 21] 1).1)
        (inodeWriteAt store0 file2 99 [20, 21] 1).2.1 [0, 0] 1).1).take 2 = [20, 21] :=
  c8_read_after_write store0 file2 99 [20, 21] [0, 0] 1 (by decide) (by decide)

/-!  ## Claim C4: size == blob length invariant

Building blocks: how each kind of store write interacts with
`FileSizeInv`. -/

/-- The stores the filesystem itself produces key every inode row by the
record's own `Inumber` (`WriteInode` upserts by it; SQL returns rows
whose `inumber` column equals the queried key). -/
def KeyConsistent (s : Store) : Prop :=
  ∀ n ind, getInode s n = some ind → ind.inumber = n

theorem fileBlobOK_putBlob_bytes (s : Store) (m n : Int) (d : List Nat) :
    fileBlobOK (applyEv s (Ev.putBlob m (Blob.bytes d))) n =
      if m = n then true else fileBlobOK s n := by
  unfold fileBlobOK
  rw [contents_putBlob]
  by_cases h : m = n <;> simp [h]

theorem fileBlobOK_putInode (s : Store) (ind : InodeData) (n : Int) :
    fileBlobOK (applyEv s (Ev.putInode ind)) n = fileBlobOK s n := rfl

theorem readContent_delBlob (s : Store) (m n : Int) :
    readContent (applyEv s (Ev.delBlob m)) n =
      if m = n then [] else readContent s n := by
  unfold readContent
  rw [contents_delBlob]
  by_cases h : m = n <;> simp [h]

theorem fileBlobOK_delBlob (s : Store) (m n : Int) :
    fileBlobOK (applyEv s (Ev.delBlob m)) n =
      if m = n then true else fileBlobOK s n := by
  unfold fileBlobOK
  rw [contents_delBlob]
  by_cases h : m = n <;> simp [h]

theorem readContent_delInode (s : Store) (m n : Int) :
    readContent (applyEv s (Ev.delInode m)) n = readContent s n := rfl

theorem fileBlobOK_delInode (s : Store) (m n : Int) :
    fileBlobOK (applyEv s (Ev.delInode m)) n = fileBlobOK s n := rfl

theorem readContent_putBlob_dirents (s : Store) (m n : Int) (es : List Dirent) :
    readContent (applyEv s (Ev.putBlob m (Blob.dirents es))) n =
      if m = n then [] else readContent s n := by
  unfold readContent
  rw [contents_putBlob]
  by_cases h : m = n <;> simp [h]

theorem fileBlobOK_putBlob_dirents (s : Store) (m n : Int) (es : List Dirent) :
    fileBlobOK (applyEv s (Ev.putBlob m (Blob.dirents es))) n =
      if m = n then false else fileBlobOK s n := by
  unfold fileBlobOK
  rw [contents_putBlob]
  by_cases h : m = n <;> simp [h]

/-- Writing a byte blob and an inode whose `size` equals its length
restores the invariant at that key and preserves it elsewhere. -/
theorem fileSizeInv_blob_and_inode (s : Store) (k : Int) (ind2 : InodeData)
    (nc : List Nat) (hInv : FileSizeInv s)
    (hsize : ind2.size = (nc.length : Int)) (hk : ind2.inumber = k) :
    FileSizeInv (applyEv (applyEv s (Ev.putBlob k (Blob.bytes nc))) (Ev.putInode ind2)) := by
  intro n ind' hget hf
  rw [getInode_putInode, getInode_putBlob, hk] at hget
  rw [fileBlobOK_putInode, fileBlobOK_putBlob_bytes]
  rw [readContent_putInode, readContent_putBlob_bytes]
  by_cases hn : k = n
  · rw [if_pos hn] at hget
    obtain rfl : ind2 = ind' := by simpa using hget
    rw [if_pos hn, if_pos hn]
    exact ⟨rfl, hsize⟩
  · rw [if_neg hn] at hget
    rw [if_neg hn, if_neg hn]
    exact hInv n ind' hget hf

/-- Rewriting only the inode row, with the same `size` and with
file-ness implying the old row's file-ness, preserves the invariant. -/
theorem fileSizeInv_putInode_preserve (s : Store) (ind ind2 : InodeData)
    (hInv : FileSizeInv s) (hget0 : getInode s ind2.inumber = some ind)
    (hsize : ind2.size = ind.size)
    (hmode : isFileMode ind2.mode = true → isFileMode ind.mode = true) :
    FileSizeInv (applyEv s (Ev.putInode ind2)) := by
  intro n ind' hget hf
  rw [getInode_putInode] at hget
  rw [fileBlobOK_putInode, readContent_putInode]
  by_cases hn : ind2.inumber = n
  · rw [if_pos hn] at hget
    obtain rfl : ind2 = ind' := by simpa using hget
    obtain ⟨h1, h2⟩ := hInv n ind (hn ▸ hget0) (hmode hf)
    exact ⟨h1, by rw [hsize, h2]⟩
  · rw [if_neg hn] at hget
    exact hInv n ind' hget hf

/-- Deleting both rows of a key preserves the invariant. -/
theorem fileSizeInv_del (s : Store) (k : Int) (hInv : FileSizeInv s) :
    FileSizeInv (applyEv (applyEv s (Ev.delInode k)) (Ev.delBlob k)) := by
  intro n ind' hget hf
  rw [getInode_delBlob, getInode_delInode] at hget
  rw [fileBlobOK_delBlob, readContent_delBlob]
  by_cases hn : k = n
  · rw [if_pos hn] at hget
    exact absurd hget (by simp)
  · rw [if_neg hn] at hget
    rw [if_neg hn, if_neg hn]
    exact hInv n ind' hget hf

/-- Inserting an inode row with `size = 0` at a key with no content row
preserves the invariant. -/
theorem fileSizeInv_new_inode (s : Store) (ind2 : InodeData)
    (hInv : FileSizeInv s)
    (hnoblob : lookupKey s.contents ind2.inumber = none)
    (hsize : ind2.size = 0) :
    FileSizeInv (applyEv s (Ev.putInode ind2)) := by
  intro n ind' hget hf
  rw [getInode_putInode] at hget
  rw [fileBlobOK_putInode, readContent_putInode]
  by_cases hn : ind2.inumber = n
  · rw [if_pos hn] at hget
    obtain rfl : ind2 = ind' := by simpa using hget
    constructor
    · unfold fileBlobOK
      rw [← hn, hnoblob]
    · unfold readContent
      rw [← hn, hnoblob, hsize]
      rfl
  · rw [if_neg hn] at hget
    exact hInv n ind' hget hf

/-- Writing a directory payload at a key whose visible inode row is a
directory preserves the invariant. -/
theorem fileSizeInv_putDirents (s : Store) (k : Int) (es : List Dirent)
    (dInd : InodeData) (hInv : FileSizeInv s)
    (hrow : getInode s k = some dInd) (hdir : isDirMode dInd.mode = true) :
    FileSizeInv (applyEv s (Ev.putBlob k (Blob.dirents es))) := by
  intro n ind' hget hf
  rw [getInode_putBlob] at hget
  rw [fileBlobOK_putBlob_dirents, readContent_putBlob_dirents]
  by_cases hn : k = n
  · obtain rfl : dInd = ind' := by rw [hn] at hrow; rw [hrow] at hget; simpa using hget
    have : isFileMode dInd.mode = false := by
      simp [isFileMode, hdir]
    rw [this] at hf
    exact absurd hf (by simp)
  · rw [if_neg hn, if_neg hn]
    exact hInv n ind' hget hf

theorem overwrite_length (c1 p : List Nat) (off : Nat)
    (h : off + p.length ≤ c1.length) :
    (c1.take off ++ p ++ c1.drop (off + p.length)).length = c1.length := by
  simp only [List.length_append, List.length_take, List.length_drop]
  omega

/-- Shape of `Inode.WriteAt`: one blob write then one inode write; the
new blob's length is `max (old length) (off + len p)`; `Size` is updated
exactly when the file grew; `Inumber` and the mode bits are unchanged. -/
theorem inodeWriteAt_spec (s : Store) (ind : InodeData) (now : Int)
    (p : List Nat) (off : Nat) :
    ∃ nc : List Nat,
      (inodeWriteAt s ind now p off).1 =
        [Ev.putBlob ind.inumber (Blob.bytes nc),
         Ev.putInode (inodeWriteAt s ind now p off).2.1] ∧
      nc.length = max (readContent s ind.inumber).length (off + p.length) ∧
      (inodeWriteAt s ind now p off).2.1.size =
        (if (readContent s ind.inumber).length < off + p.length
          then ((off + p.length : Nat) : Int) else ind.size) ∧
      (inodeWriteAt s ind now p off).2.1.inumber = ind.inumber ∧
      (inodeWriteAt s ind now p off).2.1.mode = ind.mode := by
  by_cases hg : (readContent s ind.inumber).length < off + p.length
  · refine ⟨(readContent s ind.inumber ++
        List.replicate (off + p.length - (readContent s ind.inumber).length) 0).take off
        ++ p ++
        (readContent s ind.inumber ++
        List.replicate (off + p.length - (readContent s ind.inumber).length) 0).drop
          (off + p.length), ?_, ?_, ?_, ?_, ?_⟩
    · simp [inodeWriteAt, hg]
    · rw [overwrite_length]
      · simp only [List.length_append, List.length_replicate]
        omega
      · simp only [List.length_append, List.length_replicate]
        omega
    · simp [inodeWriteAt, hg]
    · simp [inodeWriteAt, hg]
    · simp [inodeWriteAt, hg]
  · refine ⟨(readContent s ind.inumber).take off ++ p ++
        (readContent s ind.inumber).drop (off + p.length), ?_, ?_, ?_, ?_, ?_⟩
    · simp [inodeWriteAt, hg]
    · rw [overwrite_length]
      · omega
      · omega
    · simp [inodeWriteAt, hg]
    · simp [inodeWriteAt, hg]
    · simp [inodeWriteAt, hg]

/-- `WriteFile` preserves the size invariant. -/
theorem fileSizeInv_fsWriteFile (s : Store) (now : Int) (pid : Nat) (inum : Int)
    (p : List Nat) (off : Nat) (evs : List Ev) (err : Option FsErr)
    (hKC : KeyConsistent s) (hInv : FileSizeInv s)
    (h : fsWriteFile s now pid inum p off = some (evs, err)) :
    FileSizeInv (runEvs s evs) := by
  by_cases hpid : pid = 0
  · simp only [fsWriteFile, if_pos hpid, Option.some.injEq, Prod.mk.injEq] at h
    rw [← h.1]
    exact hInv
  · rcases hind : getInode s inum with _ | ind
    · simp [fsWriteFile, hpid, hind] at h
    · by_cases hfile : isFileMode ind.mode = true
      · have hkey : ind.inumber = inum := hKC inum ind hind
        simp only [fsWriteFile, if_neg hpid, hind, hfile, Bool.not_true,
          Bool.false_eq_true, if_false, Option.some.injEq, Prod.mk.injEq] at h
        rw [← h.1]
        obtain ⟨nc, hevs, hlen, hsz, hinum, hmode⟩ := inodeWriteAt_spec s ind now p off
        rw [hevs]
        have hsize : (inodeWriteAt s ind now p off).2.1.size = (nc.length : Int) := by
          rw [hsz, hlen]
          by_cases hg : (readContent s ind.inumber).length < off + p.length
          · rw [if_pos hg]
            congr 1
            omega
          · rw [if_neg hg]
            obtain ⟨_, h2⟩ := hInv inum ind hind hfile
            rw [hkey] at hg ⊢
            rw [h2]
            congr 1
            omega
        have base := fileSizeInv_blob_and_inode s ind.inumber
          (inodeWriteAt s ind now p off).2.1 nc hInv hsize hinum
        have hget2 : getInode
            (applyEv (applyEv s (Ev.putBlob ind.inumber (Blob.bytes nc)))
              (Ev.putInode (inodeWriteAt s ind now p off).2.1))
            (inodeWriteAt s ind now p off).2.1.inumber =
            some (inodeWriteAt s ind now p off).2.1 := by
          rw [getInode_putInode, if_pos rfl]
        have final := fileSizeInv_putInode_preserve _
          (inodeWriteAt s ind now p off).2.1 (inodeWriteAt s ind now p off).2.1
          base hget2 rfl (fun hh => hh)
        simpa [runEvs, applyEv] using final
      · simp [fsWriteFile, hpid, hind, hfile] at h

/-- Shape of `Inode.SetAttributes`: without a size, one inode write and
`Size` unchanged; with `size = sz`, one blob write of exactly `sz` bytes
then one inode write with `Size = sz`.  `Inumber` is unchanged. -/
theorem inodeSetAttributes_spec (s : Store) (ind : InodeData) (now : Int)
    (size : Option Nat) (mode : Option Nat) (mtime : Option Int) :
    ((size = none ∧
        (inodeSetAttributes s ind now size mode mtime).1 =
          [Ev.putInode (inodeSetAttributes s ind now size mode mtime).2] ∧
        (inodeSetAttributes s ind now size mode mtime).2.size = ind.size) ∨
      (∃ sz nc, size = some sz ∧
        (inodeSetAttributes s ind now size mode mtime).1 =
          [Ev.putBlob ind.inumber (Blob.bytes nc),
           Ev.putInode (inodeSetAttributes s ind now size mode mtime).2] ∧
        nc.length = sz ∧
        (inodeSetAttributes s ind now size mode mtime).2.size = (sz : Int))) ∧
    (inodeSetAttributes s ind now size mode mtime).2.inumber = ind.inumber := by
  rcases size with _ | sz
  · refine ⟨Or.inl ⟨rfl, ?_, ?_⟩, ?_⟩ <;>
      rcases mode with _ | m <;> rcases mtime with _ | t <;> simp [inodeSetAttributes]
  · refine ⟨Or.inr ⟨sz, if sz ≤ (readContent s ind.inumber).length
        then (readContent s ind.inumber).take sz
        else readContent s ind.inumber ++
          List.replicate (sz - (readContent s ind.inumber).length) 0, rfl, ?_, ?_, ?_⟩, ?_⟩
    · rcases mode with _ | m <;> rcases mtime with _ | t <;>
        by_cases hle : sz ≤ (readContent s ind.inumber).length <;>
        simp [inodeSetAttributes, hle]
    · by_cases hle : sz ≤ (readContent s ind.inumber).length
      · rw [if_pos hle]
        simp only [List.length_take]
        omega
      · rw [if_neg hle]
        simp only [List.length_append, List.length_replicate]
        omega
    · rcases mode with _ | m <;> rcases mtime with _ | t <;> simp [inodeSetAttributes]
    · rcases mode with _ | m <;> rcases mtime with _ | t <;> simp [inodeSetAttributes]

/-- `SetInodeAttributes` on a regular file preserves the size invariant. -/
theorem fileSizeInv_fsSetInodeAttributes (s : Store) (now : Int) (pid : Nat)
    (inum : Int) (size : Option Nat) (handle : Option Nat) (mode : Option Nat)
    (mtime : Option Int) (ind : InodeData) (evs : List Ev) (err : Option FsErr)
    (hKC : KeyConsistent s) (hInv : FileSizeInv s)
    (hind : getInode s inum = some ind) (hfile : isFileMode ind.mode = true)
    (h : fsSetInodeAttributes s now pid inum size handle mode mtime = some (evs, err)) :
    FileSizeInv (runEvs s evs) := by
  by_cases hpid : pid = 0
  · simp only [fsSetInodeAttributes, if_pos hpid, Option.some.injEq, Prod.mk.injEq] at h
    rw [← h.1]
    exact hInv
  · have hkey : ind.inumber = inum := hKC inum ind hind
    simp only [fsSetInodeAttributes, if_neg hpid, hind, Option.some.injEq,
      Prod.mk.injEq] at h
    rw [← h.1]
    obtain ⟨hshape, hinum⟩ := inodeSetAttributes_spec s ind now size mode mtime
    rcases hshape with ⟨_, hevs, hsz⟩ | ⟨sz, nc, _, hevs, hnc, hsz⟩
    · rw [hevs]
      have hget0 : getInode s (inodeSetAttributes s ind now size mode mtime).2.inumber =
          some ind := by rw [hinum, hkey, hind]
      have final := fileSizeInv_putInode_preserve s ind
        (inodeSetAttributes s ind now size mode mtime).2 hInv hget0 hsz (fun _ => hfile)
      simpa [runEvs] using final
    · rw [hevs]
      have hsize : (inodeSetAttributes s ind now size mode mtime).2.size =
          (nc.length : Int) := by rw [hsz, hnc]
      have final := fileSizeInv_blob_and_inode s ind.inumber
        (inodeSetAttributes s ind now size mode mtime).2 nc hInv hsize hinum
      simpa [runEvs] using final

/-- Writing the inode first and the blob second (fallocate's order)
also restores the invariant at that key. -/
theorem fileSizeInv_inode_then_blob (s : Store) (k : Int) (ind2 : InodeData)
    (nc : List Nat) (hInv : FileSizeInv s)
    (hsize : ind2.size = (nc.length : Int)) (hk : ind2.inumber = k) :
    FileSizeInv (applyEv (applyEv s (Ev.putInode ind2)) (Ev.putBlob k (Blob.bytes nc))) := by
  intro n ind' hget hf
  rw [getInode_putBlob, getInode_putInode, hk] at hget
  rw [fileBlobOK_putBlob_bytes, fileBlobOK_putInode]
  rw [readContent_putBlob_bytes, readContent_putInode]
  by_cases hn : k = n
  · rw [if_pos hn] at hget
    obtain rfl : ind2 = ind' := by simpa using hget
    rw [if_pos hn, if_pos hn]
    exact ⟨rfl, hsize⟩
  · rw [if_neg hn] at hget
    rw [if_neg hn, if_neg hn]
    exact hInv n ind' hget hf

/-- `Fallocate` (handler) preserves the size invariant. -/
theorem fileSizeInv_fsFallocate (s : Store) (now : Int) (pid : Nat) (inum : Int)
    (mode offset length : Nat) (ind : InodeData) (evs : List Ev) (err : Option FsErr)
    (hKC : KeyConsistent s) (hInv : FileSizeInv s)
    (hind : getInode s inum = some ind)
    (h : fsFallocate s now pid inum mode offset length = some (evs, err)) :
    FileSizeInv (runEvs s evs) := by
  by_cases hpid : pid = 0
  · simp only [fsFallocate, if_pos hpid, Option.some.injEq, Prod.mk.injEq] at h
    rw [← h.1]
    exact hInv
  · have hkey : ind.inumber = inum := hKC inum ind hind
    simp only [fsFallocate, if_neg hpid, hind, Option.some.injEq, Prod.mk.injEq] at h
    rw [← h.1]
    by_cases hmode : mode ≠ 0
    · simp [inodeFallocate, hmode, runEvs]
      exact hInv
    · rw [not_not] at hmode
      subst hmode
      by_cases hg : (readContent s ind.inumber).length < offset + length
      · have hrw : inodeFallocate s ind now 0 offset length =
            ([Ev.putInode { ind with size := ((offset + length : Nat) : Int), atime := now, mtime := now, ctime := now },
              Ev.putBlob ind.inumber (Blob.bytes (readContent s ind.inumber ++
                List.replicate (offset + length - (readContent s ind.inumber).length) 0))],
             { ind with size := ((offset + length : Nat) : Int), atime := now, mtime := now, ctime := now }, none) := by
          simp [inodeFallocate, hg]
        rw [hrw]
        have hsize : ({ ind with size := ((offset + length : Nat) : Int), atime := now, mtime := now, ctime := now } : InodeData).size =
            (((readContent s ind.inumber ++
              List.replicate (offset + length - (readContent s ind.inumber).length) 0).length : Nat) : Int) := by
          simp only [List.length_append, List.length_replicate]
          congr 1
          omega
        have final := fileSizeInv_inode_then_blob s ind.inumber
          { ind with size := ((offset + length : Nat) : Int), atime := now, mtime := now, ctime := now }
          (readContent s ind.inumber ++
            List.replicate (offset + length - (readContent s ind.inumber).length) 0)
          hInv hsize rfl
        simpa [runEvs] using final
      · simp [inodeFallocate, hg, runEvs]
        exact hInv

/-- `ForgetInode` preserves the size invariant. -/
theorem fileSizeInv_fsForgetInode (s : Store) (pid : Nat) (inum : Int) (n : Nat)
    (evs : List Ev) (err : Option FsErr)
    (hKC : KeyConsistent s) (hInv : FileSizeInv s)
    (h : fsForgetInode s pid inum n = some (evs, err)) :
    FileSizeInv (runEvs s evs) := by
  by_cases hpid : pid = 0
  · simp only [fsForgetInode, if_pos hpid, Option.some.injEq, Prod.mk.injEq] at h
    rw [← h.1]
    exact hInv
  · rcases hind : getInode s inum with _ | ind
    · simp [fsForgetInode, hpid, hind] at h
    · have hkey : ind.inumber = inum := hKC inum ind hind
      simp only [fsForgetInode, if_neg hpid, hind, Option.some.injEq, Prod.mk.injEq] at h
      rw [← h.1]
      have hbase : FileSizeInv (applyEv s (Ev.putInode (inodeDecrRef ind n).2.1)) := by
        refine fileSizeInv_putInode_preserve s ind (inodeDecrRef ind n).2.1 hInv ?_ ?_ ?_
        · have : (inodeDecrRef ind n).2.1.inumber = ind.inumber := by simp [inodeDecrRef]
          rw [this, hkey, hind]
        · simp [inodeDecrRef]
        · intro hh
          simpa [inodeDecrRef] using hh
      by_cases hdel : (inodeDecrRef ind n).2.2 = 0 ∧ (inodeDecrRef ind n).2.1.toBeDeleted
      · rw [if_pos hdel]
        have hinum : (inodeDecrRef ind n).2.1.inumber = ind.inumber := by
          simp [inodeDecrRef]
        have final := fileSizeInv_del (applyEv s (Ev.putInode (inodeDecrRef ind n).2.1))
          ind.inumber hbase
        simp only [inodeDecrRef, inodeDel] at final ⊢
        simpa [runEvs, inodeDecrRef] using final
      · rw [if_neg hdel]
        simpa [runEvs] using hbase

/-- `createFile` (and `MkNode`) preserves the size invariant, given that
the allocated inumber is fresh in both tables (which the never-reuse
allocation discipline guarantees). -/
theorem fileSizeInv_fsCreateFile (s : Store) (now : Int) (pid : Nat) (parent : Int)
    (name : String) (mode : Nat) (uid gid : Int) (dt : Nat)
    (evs : List Ev) (err : Option FsErr)
    (hKC : KeyConsistent s) (hInv : FileSizeInv s)
    (hfresh1 : getInode s (nextInumber s) = none)
    (hfresh2 : lookupKey s.contents (nextInumber s) = none)
    (h : fsCreateFile s now pid parent name mode uid gid dt = some (evs, err)) :
    FileSizeInv (runEvs s evs) := by
  by_cases hpid : pid = 0
  · simp only [fsCreateFile, if_pos hpid, Option.some.injEq, Prod.mk.injEq] at h
    rw [← h.1]
    exact hInv
  · rcases hpar : getInode s parent with _ | par
    · simp [fsCreateFile, hpid, hpar] at h
    · by_cases hpdir : isDirMode par.mode = true
      · have hpkey : par.inumber = parent := hKC parent par hpar
        rcases hent : getChildren s par.inumber with _ | entries
        · simp [fsCreateFile, hpid, hpar, hpdir, hent] at h
        · rcases hfc : findChild entries name with _ | d
          · -- name is new: allocate and add
            have hnepk : parent ≠ nextInumber s := by
              intro hc
              rw [hc, hfresh1] at hpar
              cases hpar
            have hchild1 : (newInode (nextInumber s) 0 1 mode now now uid gid now).1 =
                Ev.putInode (newInode (nextInumber s) 0 1 mode now now uid gid now).2 ::
                  (if isDirMode mode then
                    [Ev.putBlob (nextInumber s) (Blob.dirents [])] else []) := rfl
            have hlp : lookupKey (runEvs s
                (newInode (nextInumber s) 0 1 mode now now uid gid now).1).contents
                par.inumber = lookupKey s.contents par.inumber := by
              rw [hchild1]
              by_cases hcdir : isDirMode mode = true
              · rw [if_pos hcdir]
                simp only [runEvs, List.foldl_cons, List.foldl_nil]
                rw [contents_putBlob, contents_putInode,
                  if_neg (fun hc => hnepk (hpkey ▸ hc.symm))]
              · rw [if_neg hcdir]
                simp only [runEvs, List.foldl_cons, List.foldl_nil]
                rw [contents_putInode]
            have hchildren1 : getChildren (runEvs s
                (newInode (nextInumber s) 0 1 mode now now uid gid now).1)
                par.inumber = some entries := by
              unfold getChildren at hent ⊢
              rw [hlp]
              exact hent
            have hadd : inodeAddChild (runEvs s
                (newInode (nextInumber s) 0 1 mode now now uid gid now).1) par now
                (newInode (nextInumber s) 0 1 mode now now uid gid now).2.inumber
                name dt =
                some ([Ev.putBlob par.inumber (Blob.dirents (addChildEntries entries 0
                        (newInode (nextInumber s) 0 1 mode now now uid gid now).2.inumber
                        name dt)),
                       Ev.putInode { par with mtime := now, atime := now }],
                      { par with mtime := now, atime := now }) := by
              rw [inodeAddChild, hchildren1]
              rfl
            simp only [fsCreateFile, if_neg hpid, hpar, hpdir, Bool.not_true,
              Bool.false_eq_true, if_false, hent, hfc, hadd, Option.some.injEq,
              Prod.mk.injEq] at h
            rw [← h.1]
            -- invariant chain along the events
            have inv_a : FileSizeInv (applyEv s (Ev.putInode
                (newInode (nextInumber s) 0 1 mode now now uid gid now).2)) :=
              fileSizeInv_new_inode s _ hInv hfresh2 rfl
            have inv_b : FileSizeInv (runEvs s
                (newInode (nextInumber s) 0 1 mode now now uid gid now).1) := by
              rw [hchild1]
              by_cases hcdir : isDirMode mode = true
              · rw [if_pos hcdir]
                simp only [runEvs, List.foldl_cons, List.foldl_nil]
                refine fileSizeInv_putDirents _ (nextInumber s) []
                  (newInode (nextInumber s) 0 1 mode now now uid gid now).2 inv_a ?_ hcdir
                rw [getInode_putInode, if_pos (show
                  (newInode (nextInumber s) 0 1 mode now now uid gid now).2.inumber =
                    nextInumber s from rfl)]
              · rw [if_neg hcdir]
                simpa [runEvs] using inv_a
            have hrow1 : getInode (runEvs s
                (newInode (nextInumber s) 0 1 mode now now uid gid now).1)
                par.inumber = some par := by
              rw [hchild1]
              by_cases hcdir : isDirMode mode = true
              · rw [if_pos hcdir]
                simp only [runEvs, List.foldl_cons, List.foldl_nil]
                rw [getInode_putBlob, getInode_putInode,
                  if_neg (fun hc => hnepk (hpkey ▸ hc.symm))]
                rw [hpkey, hpar]
              · rw [if_neg hcdir]
                simp only [runEvs, List.foldl_cons, List.foldl_nil]
                rw [getInode_putInode, if_neg (fun hc => hnepk (hpkey ▸ hc.symm))]
                rw [hpkey, hpar]
            have inv_c : FileSizeInv (applyEv (runEvs s
                (newInode (nextInumber s) 0 1 mode now now uid gid now).1)
                (Ev.putBlob par.inumber (Blob.dirents (addChildEntries entries 0
                  (newInode (nextInumber s) 0 1 mode now now uid gid now).2.inumber
                  name dt)))) :=
              fileSizeInv_putDirents _ par.inumber _ par inv_b hrow1 hpdir
            have hrow2 : getInode (applyEv (runEvs s
                (newInode (nextInumber s) 0 1 mode now now uid gid now).1)
                (Ev.putBlob par.inumber (Blob.dirents (addChildEntries entries 0
                  (newInode (nextInumber s) 0 1 mode now now uid gid now).2.inumber
                  name dt))))
                ({ par with mtime := now, atime := now } : InodeData).inumber =
                some par := by
              rw [getInode_putBlob]
              exact hrow1
            have inv_d := fileSizeInv_putInode_preserve _ par
              { par with mtime := now, atime := now } inv_c hrow2 rfl (fun hh => hh)
            rw [runEvs_append]
            simpa [runEvs] using inv_d
          · -- EEXIST: no writes
            simp only [fsCreateFile, if_neg hpid, hpar, hpdir, Bool.not_true,
              Bool.false_eq_true, if_false, hent, hfc, Option.some.injEq,
              Prod.mk.injEq] at h
            rw [← h.1]
            exact hInv
      · simp [fsCreateFile, hpid, hpar, hpdir] at h

/-- C4: every completed operation of the step relation — create,
write_at, set_attributes, fallocate, forget — preserves the invariant
that every persisted regular-file inode's `size` equals the length of
its blob (an absent blob reading as empty bytes). -/
theorem c4_file_size_invariant (s s' : Store)
    (hstep : FsStep s s') (hKC : KeyConsistent s) (hInv : FileSizeInv s) :
    FileSizeInv s' := by
  cases hstep with
  | create now pid parent name mode uid gid dt evs err h1 h2 h =>
    exact fileSizeInv_fsCreateFile s now pid parent name mode uid gid dt evs err
      hKC hInv h1 h2 h
  | write now pid inum p off evs err h =>
    exact fileSizeInv_fsWriteFile s now pid inum p off evs err hKC hInv h
  | setAttr now pid inum size handle mode mtime ind evs err hind hfile h =>
    exact fileSizeInv_fsSetInodeAttributes s now pid inum size handle mode mtime
      ind evs err hKC hInv hind hfile h
  | fallocate now pid inum mode offset length ind evs err hind hfile h =>
    exact fileSizeInv_fsFallocate s now pid inum mode offset length ind evs err
      hKC hInv hind h
  | forget pid inum n evs err h =>
    exact fileSizeInv_fsForgetInode s pid inum n evs err hKC hInv h

theorem keyConsistent_store0 : KeyConsistent store0 := by
  intro n ind h
  by_cases h1 : (1 : Int) = n
  · simp only [store0, getInode, lookupKey, if_pos h1] at h
    obtain rfl := Option.some.inj h
    rw [← h1]
    rfl
  · by_cases h2 : (2 : Int) = n
    · simp only [store0, getInode, lookupKey, if_neg h1, if_pos h2] at h
      obtain rfl := Option.some.inj h
      rw [← h2]
      rfl
    · simp [store0, getInode, lookupKey, h1, h2] at h

theorem fileSizeInv_store0 : FileSizeInv store0 := by
  intro n ind h hf
  by_cases h1 : (1 : Int) = n
  · simp only [store0, getInode, lookupKey, if_pos h1] at h
    obtain rfl := Option.some.inj h
    exact absurd hf (by decide)
  · by_cases h2 : (2 : Int) = n
    · simp only [store0, getInode, lookupKey, if_neg h1, if_pos h2] at h
      obtain rfl := Option.some.inj h
      constructor
      · rw [← h2]
        decide
      · rw [← h2]
        decide
    · simp [store0, getInode, lookupKey, h1, h2] at h

/-- C4 witness: creating file `g` (inode 3) under the root of `store0`
is a step, and the invariant holds afterwards. -/
theorem c4_file_size_invariant_witness :
    FileSizeInv (runEvs store0
      [Ev.putInode { inumber := 3, size := 0, nlink := 1, mode := 420, atime := 99, mtime := 99, ctime := 99, crtime := 99, uid := 1000, gid := 1000, toBeDeleted := false },
       Ev.putBlob 1 (Blob.dirents
         [{ offset := 1, inode := 2, name := "f", typ := dtFile },
          { offset := 2, inode := 3, name := "g", typ := dtFile }]),
       Ev.putInode { root1 with mtime := 99, atime := 99 }]) :=
  c4_file_size_invariant store0 _
    (FsStep.create store0 99 7 1 "g" 420 1000 1000 dtFile
      [Ev.putInode { inumber := 3, size := 0, nlink := 1, mode := 420, atime := 99, mtime := 99, ctime := 99, crtime := 99, uid := 1000, gid := 1000, toBeDeleted := false },
       Ev.putBlob 1 (Blob.dirents
         [{ offset := 1, inode := 2, name := "f", typ := dtFile },
          { offset := 2, inode := 3, name := "g", typ := dtFile }]),
       Ev.putInode { root1 with mtime := 99, atime := 99 }]
      none (by decide) (by decide) (by decide))
    keyConsistent_store0 fileSizeInv_store0

/-!  ## Claim C9: rename onto the same (parent, name) loses the entry -/

/-- Number of entries carrying a given name. -/
def countName (es : List Dirent) (name : String) : Nat :=
  es.countP (fun e => decide (e.name = name))

theorem findChild_eq_none_iff (es : List Dirent) (name : String) :
    findChild es name = none ↔ countName es name = 0 := by
  induction es with
  | nil => simp [findChild, countName]
  | cons e t ih =>
    by_cases h : e.name = name
    · simp [findChild, h, countName, List.countP_cons]
    · simp [findChild, h, countName, List.countP_cons] at ih ⊢
      exact ih

theorem removeChildEntries_eq_none_iff (es : List Dirent) (i : Nat) (name : String) :
    removeChildEntries es i name = none ↔ findChild es name = none := by
  induction es generalizing i with
  | nil => simp [removeChildEntries, findChild]
  | cons e t ih =>
    by_cases h : e.name = name
    · simp [removeChildEntries, findChild, h]
    · simp [removeChildEntries, findChild, h, Option.map_eq_none', ih]

theorem countName_removeChildEntries (es : List Dirent) (i : Nat) (name : String)
    (es' : List Dirent) (h : removeChildEntries es i name = some es')
    (hname : name ≠ "") :
    countName es' name + 1 = countName es name := by
  have h0 : ¬(("" : String) = name) := fun hh => hname hh.symm
  induction es generalizing i es' with
  | nil => simp [removeChildEntries] at h
  | cons e t ih =>
    by_cases he : e.name = name
    · simp only [removeChildEntries, if_pos he, Option.some.injEq] at h
      subst h
      simp [countName, List.countP_cons, freeDirent, he, h0]
    · simp only [removeChildEntries, if_neg he, Option.map_eq_some'] at h
      obtain ⟨t', ht', rfl⟩ := h
      have hrec := ih (i + 1) t' ht'
      simp [countName, List.countP_cons, he] at hrec ⊢
      omega

theorem countName_addChildEntries (es : List Dirent) (i : Nat) (id : Int)
    (name : String) (dt : Nat)
    (hfree : ∀ e ∈ es, e.typ = dtUnknown → e.name ≠ name) :
    countName (addChildEntries es i id name dt) name = countName es name + 1 := by
  induction es generalizing i with
  | nil => simp [addChildEntries, countName, List.countP_cons]
  | cons e t ih =>
    by_cases he : e.typ = dtUnknown
    · simp only [addChildEntries, if_pos he]
      have hen : e.name ≠ name := hfree e (by simp) he
      simp [countName, List.countP_cons, hen]
    · simp only [addChildEntries, if_neg he]
      have ih' := ih (i + 1) (fun e' he' ht => hfree e' (by simp [he']) ht)
      by_cases hen : e.name = name <;>
        simp [countName, List.countP_cons, hen] at ih' ⊢ <;> omega

theorem freeName_removeChildEntries (es : List Dirent) (i : Nat)
    (name name2 : String) (es' : List Dirent)
    (h : removeChildEntries es i name2 = some es') (hname : name ≠ "")
    (hfree : ∀ e ∈ es, e.typ = dtUnknown → e.name ≠ name) :
    ∀ e ∈ es', e.typ = dtUnknown → e.name ≠ name := by
  induction es generalizing i es' with
  | nil => simp [removeChildEntries] at h
  | cons e t ih =>
    by_cases he : e.name = name2
    · simp only [removeChildEntries, if_pos he, Option.some.injEq] at h
      subst h
      intro e' he' ht
      rcases List.mem_cons.mp he' with rfl | he'
      · intro hh
        exact hname (by simpa [freeDirent] using hh.symm)
      · exact hfree e' (by simp [he']) ht
    · simp only [removeChildEntries, if_neg he, Option.map_eq_some'] at h
      obtain ⟨t', ht', rfl⟩ := h
      intro e' he' ht
      rcases List.mem_cons.mp he' with rfl | he'
      · exact hfree e' (by simp) ht
      · exact ih _ _ ht' (fun x hx hxt => hfree x (by simp [hx]) hxt) e' he' ht

/-- The remove/add/remove sequence that `Rename` performs when the old
and new (parent, name) pairs coincide: the first `RemoveChild` frees the
slot, `AddChild` re-fills the first free slot with the name, and the
final `RemoveChild` frees it again, so no entry with the name remains. -/
theorem rename_same_name_tail (s : Store) (par : InodeData) (now : Int) (P : Int)
    (name : String) (entries : List Dirent) (cid : Int) (ctyp : Nat)
    (hkey : par.inumber = P) (hent : getChildren s P = some entries)
    (hname : name ≠ "") (huniq : countName entries name = 1)
    (hfree : ∀ e ∈ entries, e.typ = dtUnknown → e.name ≠ name) :
    ∃ evs1 evs23 es3,
      inodeRemoveChild s par now name =
        some (evs1, { par with mtime := now, atime := now }) ∧
      fsRenameTail (runEvs s evs1) par par now cid ctyp name name = some evs23 ∧
      getChildren (runEvs (runEvs s evs1) evs23) P = some es3 ∧
      findChild es3 name = none ∧ countName es3 name = 0 ∧
      getInode (runEvs (runEvs s evs1) evs23) P =
        some { par with mtime := now, atime := now } := by
  -- the first removal succeeds
  obtain ⟨es1, hes1⟩ : ∃ es1, removeChildEntries entries 0 name = some es1 := by
    rcases hr : removeChildEntries entries 0 name with _ | es1
    · rw [removeChildEntries_eq_none_iff, findChild_eq_none_iff, huniq] at hr
      cases hr
    · exact ⟨es1, rfl⟩
  have hentk : getChildren s par.inumber = some entries := by rw [hkey]; exact hent
  have hrm1 : inodeRemoveChild s par now name =
      some ([Ev.putBlob par.inumber (Blob.dirents es1),
             Ev.putInode { par with mtime := now, atime := now }],
            { par with mtime := now, atime := now }) := by
    simp [inodeRemoveChild, hentk, hes1]
  have hcnt1 : countName es1 name = 0 := by
    have := countName_removeChildEntries entries 0 name es1 hes1 hname
    omega
  have hfree1 : ∀ e ∈ es1, e.typ = dtUnknown → e.name ≠ name :=
    freeName_removeChildEntries entries 0 name name es1 hes1 hname hfree
  -- state after the first removal
  have hc1 : getChildren (runEvs s [Ev.putBlob par.inumber (Blob.dirents es1),
      Ev.putInode { par with mtime := now, atime := now }]) par.inumber =
      some es1 := by
    simp only [runEvs, List.foldl_cons, List.foldl_nil]
    unfold getChildren
    rw [contents_putInode, contents_putBlob, if_pos rfl]
  have hadd : inodeAddChild (runEvs s [Ev.putBlob par.inumber (Blob.dirents es1),
      Ev.putInode { par with mtime := now, atime := now }]) par now cid name ctyp =
      some ([Ev.putBlob par.inumber
              (Blob.dirents (addChildEntries es1 0 cid name ctyp)),
             Ev.putInode { par with mtime := now, atime := now }],
            { par with mtime := now, atime := now }) := by
    simp [inodeAddChild, hc1]
  have hcnt2 : countName (addChildEntries es1 0 cid name ctyp) name = 1 := by
    rw [countName_addChildEntries es1 0 cid name ctyp hfree1, hcnt1]
  -- the final removal succeeds
  obtain ⟨es3, hes3⟩ : ∃ es3,
      removeChildEntries (addChildEntries es1 0 cid name ctyp) 0 name = some es3 := by
    rcases hr : removeChildEntries (addChildEntries es1 0 cid name ctyp) 0 name
      with _ | es3
    · rw [removeChildEntries_eq_none_iff, findChild_eq_none_iff, hcnt2] at hr
      cases hr
    · exact ⟨es3, rfl⟩
  have hcnt3 : countName es3 name = 0 := by
    have := countName_removeChildEntries (addChildEntries es1 0 cid name ctyp)
      0 name es3 hes3 hname
    omega
  have hc2 : getChildren (runEvs (runEvs s [Ev.putBlob par.inumber (Blob.dirents es1),
      Ev.putInode { par with mtime := now, atime := now }])
      [Ev.putBlob par.inumber (Blob.dirents (addChildEntries es1 0 cid name ctyp)),
       Ev.putInode { par with mtime := now, atime := now }]) par.inumber =
      some (addChildEntries es1 0 cid name ctyp) := by
    simp only [runEvs, List.foldl_cons, List.foldl_nil]
    unfold getChildren
    rw [contents_putInode, contents_putBlob, if_pos rfl]
  have hrm2 : inodeRemoveChild (runEvs (runEvs s
      [Ev.putBlob par.inumber (Blob.dirents es1),
       Ev.putInode { par with mtime := now, atime := now }])
      [Ev.putBlob par.inumber (Blob.dirents (addChildEntries es1 0 cid name ctyp)),
       Ev.putInode { par with mtime := now, atime := now }]) par now name =
      some ([Ev.putBlob par.inumber (Blob.dirents es3),
             Ev.putInode { par with mtime := now, atime := now }],
            { par with mtime := now, atime := now }) := by
    simp [inodeRemoveChild, hc2, hes3]
  have htail : fsRenameTail (runEvs s [Ev.putBlob par.inumber (Blob.dirents es1),
      Ev.putInode { par with mtime := now, atime := now }]) par par now cid ctyp
      name name =
      some ([Ev.putBlob par.inumber
              (Blob.dirents (addChildEntries es1 0 cid name ctyp)),
             Ev.putInode { par with mtime := now, atime := now }] ++
            [Ev.putBlob par.inumber (Blob.dirents es3),
             Ev.putInode { par with mtime := now, atime := now }]) := by
    rw [fsRenameTail, hadd]
    simp [hrm2]
  refine ⟨_, _, es3, hrm1, htail, ?_, ?_, hcnt3, ?_⟩
  · rw [runEvs_append]
    simp only [runEvs, List.foldl_cons, List.foldl_nil]
    unfold getChildren
    rw [contents_putInode, contents_putBlob, if_pos hkey]
  · rw [findChild_eq_none_iff]
    exact hcnt3
  · rw [runEvs_append]
    simp only [runEvs, List.foldl_cons, List.foldl_nil]
    rw [getInode_putInode, if_pos hkey]

theorem lookup_after_rename (s' : Store) (now : Int) (pid : Nat) (P : Int)
    (name : String) (par' : InodeData) (es3 : List Dirent)
    (hpid : pid ≠ 0) (hg : getInode s' P = some par')
    (hdir : isDirMode par'.mode = true) (hkey : par'.inumber = P)
    (hc : getChildren s' P = some es3) (hf : findChild es3 name = none) :
    fsLookUpInode s' now pid P name = some ([], some FsErr.ENOENT, none) := by
  have hck : getChildren s' par'.inumber = some es3 := by rw [hkey]; exact hc
  simp [fsLookUpInode, hpid, hg, hdir, hck, hf]

/-- C9: a `Rename` whose old and new parent and name coincide, naming a
regular file or an empty directory, returns success — yet afterwards no
entry with that name remains in the directory, and a subsequent
`LookUpInode` of the name returns `ENOENT`. -/
theorem c9_rename_same_name_drops_entry
    (s : Store) (now : Int) (pid : Nat) (P : Int) (name : String)
    (par child : InodeData) (entries : List Dirent) (d : Dirent)
    (hpid : pid ≠ 0) (hname : name ≠ "")
    (hpar : getInode s P = some par) (hdir : isDirMode par.mode = true)
    (hkey : par.inumber = P)
    (hent : getChildren s P = some entries)
    (hfind : findChild entries name = some d)
    (huniq : countName entries name = 1)
    (hfree : ∀ e ∈ entries, e.typ = dtUnknown → e.name ≠ name)
    (hchild : getInode s d.inode = some child) (hckey : child.inumber = d.inode)
    (hcase : isFileMode child.mode = true ∨
      (isDirMode child.mode = true ∧
        ∃ ces, getChildren s d.inode = some ces ∧ readDirBytes ces 4096 = 0)) :
    ∃ evs, fsRename s now pid P name P name = some (evs, none) ∧
      (∃ es', getChildren (runEvs s evs) P = some es' ∧ findChild es' name = none ∧
        countName es' name = 0) ∧
      fsLookUpInode (runEvs s evs) now pid P name =
        some ([], some FsErr.ENOENT, none) := by
  have hentk : getChildren s par.inumber = some entries := by rw [hkey]; exact hent
  rcases hcase with hcf | ⟨hcd, ces, hces, hrd⟩
  · -- the named child is a regular file
    have hndir : isDirMode child.mode = false := isDirMode_false_of_isFileMode _ hcf
    obtain ⟨evs1, evs23, es3, hrm1, htail, hc3, hfind3, hcnt3, hg3⟩ :=
      rename_same_name_tail s par now P name entries d.inode d.typ hkey hent
        hname huniq hfree
    have hrename : fsRename s now pid P name P name = some (evs1 ++ evs23, none) := by
      rw [fsRename]
      simp [hpid, hpar, hdir, hentk, hfind, hchild, hndir, hrm1, htail]
    refine ⟨evs1 ++ evs23, hrename, ⟨es3, ?_, hfind3, hcnt3⟩, ?_⟩
    · rw [runEvs_append]
      exact hc3
    · rw [runEvs_append]
      exact lookup_after_rename _ now pid P name
        { par with mtime := now, atime := now } es3 hpid hg3 hdir hkey hc3 hfind3
  · -- the named child is an empty directory
    have hcesk : getChildren s child.inumber = some ces := by rw [hckey]; exact hces
    have hreaddir : inodeReadDir s child now 4096 0 =
        some ([Ev.putInode { child with atime := now }],
              { child with atime := now }, 0) := by
      simp [inodeReadDir, hcesk, hrd]
    have hent0 : getChildren (runEvs s [Ev.putInode { child with atime := now }]) P =
        some entries := by
      simp only [runEvs, List.foldl_cons, List.foldl_nil]
      unfold getChildren at hent ⊢
      rw [contents_putInode]
      exact hent
    obtain ⟨evs1, evs23, es3, hrm1, htail, hc3, hfind3, hcnt3, hg3⟩ :=
      rename_same_name_tail (runEvs s [Ev.putInode { child with atime := now }])
        par now P name entries d.inode d.typ hkey hent0 hname huniq hfree
    have hrename : fsRename s now pid P name P name =
        some ([Ev.putInode { child with atime := now }] ++ evs1 ++ evs23, none) := by
      rw [fsRename]
      simp [hpid, hpar, hdir, hentk, hfind, hchild, hcd, hreaddir, hrm1, htail]
    refine ⟨_, hrename, ⟨es3, ?_, hfind3, hcnt3⟩, ?_⟩
    · rw [runEvs_append, runEvs_append]
      exact hc3
    · rw [runEvs_append, runEvs_append]
      exact lookup_after_rename _ now pid P name
        { par with mtime := now, atime := now } es3 hpid hg3 hdir hkey hc3 hfind3

/-- C9 witness: renaming `f` onto itself in the root of `store0` returns
success, removes the entry, and a subsequent lookup misses. -/
theorem c9_rename_same_name_drops_entry_witness :
    ∃ evs, fsRename store0 99 7 1 "f" 1 "f" = some (evs, none) ∧
      (∃ es', getChildren (runEvs store0 evs) 1 = some es' ∧
        findChild es' "f" = none ∧ countName es' "f" = 0) ∧
      fsLookUpInode (runEvs store0 evs) 99 7 1 "f" =
        some ([], some FsErr.ENOENT, none) :=
  c9_rename_same_name_drops_entry store0 99 7 1 "f" root1 file2
    [{ offset := 1, inode := 2, name := "f", typ := dtFile }]
    { offset := 1, inode := 2, name := "f", typ := dtFile }
    (by decide) (by decide) (by rfl) (by decide) (by rfl) (by rfl) (by decide)
    (by decide) (by decide) (by rfl) (by rfl) (Or.inl (by decide))

/-- A store holding root (1), file 2 and the doomed file inode 3: the
inumber in use with the greatest value is 3. -/
def store2 : Store :=
  { inodes := [(1, root1), (2, file2), (3, doomed3)],
    contents := [(2, Blob.bytes [10, 11, 12]), (3, Blob.bytes [1, 2])] }

/-- C5 counterexample: inumber 3 is in use in `store2` (so the next
allocation would be 4), a `ForgetInode` deletes inode 3, and afterwards
`next_inumber` returns 3 — the just-deleted inumber is handed out again,
refuting "allocated inumbers are never reused". -/
theorem c5_next_inumber_reuse_counterexample :
    getInode store2 3 = some doomed3 ∧
    nextInumber store2 = 4 ∧
    fsForgetInode store2 7 3 1 =
      some ([Ev.putInode { doomed3 with nlink := 0 },
             Ev.delInode 3, Ev.delBlob 3], none) ∧
    getInode (runEvs store2 [Ev.putInode { doomed3 with nlink := 0 },
      Ev.delInode 3, Ev.delBlob 3]) 3 = none ∧
    nextInumber (runEvs store2 [Ev.putInode { doomed3 with nlink := 0 },
      Ev.delInode 3, Ev.delBlob 3]) = 3 := by
  refine ⟨by rfl, by decide, by rfl, by decide, by decide⟩
